import Mathlib

/-! # Daily Routine Pro: the routine generator and the state store

A shallow embedding of `src/main.js`.  JavaScript strings are Lean strings,
handled through their character lists.  A number that the routine generator
computes with is an `Option Int`: `some z` is the integer `z`, `none` is `NaN`
(the generator is modelled for integer minutes and durations below 2^53 in
magnitude, where double arithmetic on integers is exact).  The number that
`parseInt` returns is a `JSNumber`: an integer rounded to a double, `NaN` or
an infinity.  The readings of `Date.now()` are parameters.  The DOM rendering
functions and the writes to `localStorage` have no effect on the state and are
left out.

The generator and the completion toggle work on a state whose fields have the
shapes the generator gives them (`State`).  `submitModal` pushes whatever
number `parseInt` returns as the duration, so it is modelled on a state whose
goals hold a `JSNumber` (`SubmitState`).  `loadState` assigns whatever the
persisted text holds, so it is modelled on untyped values (`RawState`,
`JSValue`) with a model of `JSON.parse`.
-/

namespace DailyRoutine

/-! ## Strings and numbers of the host language -/

/-- The code points that `String.prototype.trim`, `parseInt` and `Number`
skip: ECMAScript WhiteSpace and LineTerminator. -/
def isJsSpace (c : Char) : Bool :=
  c.toNat = 0x09 || c.toNat = 0x0A || c.toNat = 0x0B || c.toNat = 0x0C ||
  c.toNat = 0x0D || c.toNat = 0x20 || c.toNat = 0xA0 || c.toNat = 0x1680 ||
  (0x2000 ≤ c.toNat && c.toNat ≤ 0x200A) || c.toNat = 0x2028 ||
  c.toNat = 0x2029 || c.toNat = 0x202F || c.toNat = 0x205F ||
  c.toNat = 0x3000 || c.toNat = 0xFEFF

/-- The characters of `s.trim()`. -/
def trimChars (cs : List Char) : List Char :=
  ((cs.dropWhile isJsSpace).reverse.dropWhile isJsSpace).reverse

/-- The method `s.trim()`. -/
def jsTrim (s : String) : String := String.mk (trimChars s.data)

/-- The decimal digit `d` as a character. -/
def digitChar (d : Nat) : Char := Char.ofNat (48 + d)

/-- The decimal digits of `n`, most significant first, pushed in front of
`acc`; `fuel` bounds the number of digits. -/
def natDigitsAux : Nat → Nat → List Char → List Char
  | 0, _, acc => acc
  | fuel + 1, n, acc =>
    if n / 10 = 0 then digitChar (n % 10) :: acc
    else natDigitsAux fuel (n / 10) (digitChar (n % 10) :: acc)

/-- The decimal digits of a natural number, `"0"` for zero. -/
def natDigits (n : Nat) : List Char := natDigitsAux (n + 1) n []

/-- The characters of `Number.prototype.toString()` on an integer. -/
def intChars (z : Int) : List Char :=
  if z < 0 then '-' :: natDigits z.natAbs else natDigits z.natAbs

/-- The method `toString()` on a number: `none` is `NaN`. -/
def numChars : Option Int → List Char
  | none => ['N', 'a', 'N']
  | some z => intChars z

/-- The method `toString()` on an integer number, as in `Date.now().toString()`. -/
def numToString (z : Int) : String := String.mk (intChars z)

/-- The value of a decimal digit character, if it is one. -/
def digitVal (c : Char) : Option Nat :=
  if 48 ≤ c.toNat ∧ c.toNat ≤ 57 then some (c.toNat - 48) else none

/-- The value of a string of decimal digits read from the left, starting from
`acc`; `none` when some character is not a decimal digit. -/
def digitsVal : Nat → List Char → Option Nat
  | acc, [] => some acc
  | acc, c :: cs =>
    match digitVal c with
    | some d => digitsVal (acc * 10 + d) cs
    | none => none

/-- The function `Number` on a string, for the integer literals: surrounding
white space is dropped, the empty string is `0`, and an optionally signed
string of decimal digits is its value.  Every other string is `NaN` here; the
literals with a fraction, an exponent, a radix prefix or `Infinity`, which the
host language also accepts, are outside this model (no "HH:MM" time holds
one). -/
def jsNumber (cs : List Char) : Option Int :=
  match trimChars cs with
  | [] => some 0
  | '-' :: d :: ds => (digitsVal 0 (d :: ds)).map (fun n => - (n : Int))
  | '+' :: d :: ds => (digitsVal 0 (d :: ds)).map (fun n => (n : Int))
  | ds => if ds.head? = some '-' ∨ ds.head? = some '+' then none
          else (digitsVal 0 ds).map (fun n => (n : Int))

/-- The method `s.split(':')`. -/
def splitColon : List Char → List (List Char)
  | [] => [[]]
  | c :: cs =>
    if c = ':' then [] :: splitColon cs
    else
      match splitColon cs with
      | [] => [[c]]
      | p :: ps => (c :: p) :: ps

/-- Addition of two numbers; `NaN` is absorbing. -/
def jsAdd : Option Int → Option Int → Option Int
  | some a, some b => some (a + b)
  | _, _ => none

/-- Subtraction of two numbers; `NaN` is absorbing. -/
def jsSub : Option Int → Option Int → Option Int
  | some a, some b => some (a - b)
  | _, _ => none

/-- Multiplication of two numbers; `NaN` is absorbing. -/
def jsMul : Option Int → Option Int → Option Int
  | some a, some b => some (a * b)
  | _, _ => none

/-- The comparison `a <= b`; false as soon as one side is `NaN`. -/
def jsLe : Option Int → Option Int → Bool
  | some a, some b => decide (a ≤ b)
  | _, _ => false

/-- The comparison `a < b`; false as soon as one side is `NaN`. -/
def jsLt : Option Int → Option Int → Bool
  | some a, some b => decide (a < b)
  | _, _ => false

/-- The method `s.padStart(2, '0')`. -/
def padStart2 (cs : List Char) : List Char :=
  List.replicate (2 - cs.length) '0' ++ cs

/-! ## The helpers `timeToMinutes` and `minutesToTime` -/

/-- The helper `timeToMinutes(timeStr)`: `[h, m] = timeStr.split(':').map(Number)` and
`h * 60 + m`; a missing `m` is `undefined`, which makes the sum `NaN`. -/
def timeToMinutes (timeStr : String) : Option Int :=
  match (splitColon timeStr.data).map jsNumber with
  | h :: m :: _ => jsAdd (jsMul h (some 60)) m
  | _ => none

/-- The helper `minutesToTime(mins)`: `h = Math.floor(mins / 60)`, `m = mins % 60` (the
remainder has the sign of `mins`), both padded to two characters. -/
def minutesToTime (mins : Option Int) : String :=
  let h := mins.map (fun z => z / 60)
  let m := mins.map (fun z => z.tmod 60)
  String.mk (padStart2 (numChars h) ++ ':' :: padStart2 (numChars m))

/-! ## The state -/

/-- The field `state.config`: the two "HH:MM" strings of the time inputs. -/
structure Config where
  start : String
  end_ : String
  deriving DecidableEq

/-- An entry of `state.goals`. -/
structure Goal where
  id : String
  title : String
  duration : Int
  priority : String
  deriving DecidableEq

/-- An entry of `state.routine`.  The property `isSystem` is absent (`none`)
on the items made from goals and `true` on the filler. -/
structure RoutineItem where
  id : String
  title : String
  startTime : String
  duration : Int
  completed : Bool
  priority : String
  isSystem : Option Bool
  deriving DecidableEq

/-- The global `state` object. -/
structure State where
  config : Config
  goals : List Goal
  routine : List RoutineItem
  activeView : String
  deriving DecidableEq

/-- The initial value of `state`. -/
def initialState : State :=
  { config := { start := "08:00", end_ := "22:00" },
    goals := [], routine := [], activeView := "dashboard" }

/-! ## The routine generator -/

/-- The table `priorityMap`; a key that is not in it reads as `undefined`,
which is `NaN` in the subtraction. -/
def priorityMap (p : String) : Option Int :=
  if p = "High" then some 3
  else if p = "Medium" then some 2
  else if p = "Low" then some 1
  else none

/-- The comparator `(a, b) => priorityMap[b.priority] - priorityMap[a.priority]`
as `sort` reads it: a `NaN` result counts as `0`. -/
def sortCompare (a b : Goal) : Int :=
  (jsSub (priorityMap b.priority) (priorityMap a.priority)).getD 0

/-- The relation "`a` need not move behind `b`": the comparator is not positive. -/
def notAfter (a b : Goal) : Prop := sortCompare a b ≤ 0

instance : DecidableRel notAfter := fun a b =>
  inferInstanceAs (Decidable (sortCompare a b ≤ 0))

/-- The copy `[...state.goals].sort(comparator)`.  The sort of the host language is
stable; it is modelled by the stable insertion sort.  (With priorities other
than High, Medium and Low the comparator is not an order and the host
language leaves the result to the implementation.) -/
def sortedGoals (goals : List Goal) : List Goal :=
  goals.insertionSort notAfter

/-- The item pushed for a goal that fits at `currentMinutes`. -/
def goalItem (goal : Goal) (currentMinutes : Option Int) : RoutineItem :=
  { id := goal.id ++ "-r",
    title := goal.title,
    startTime := minutesToTime currentMinutes,
    duration := goal.duration,
    completed := false,
    priority := goal.priority,
    isSystem := none }

/-- One turn of the `forEach` loop on `(currentMinutes, routine)`. -/
def packStep (endMinutes : Option Int) (acc : Option Int × List RoutineItem)
    (goal : Goal) : Option Int × List RoutineItem :=
  if jsLe (jsAdd acc.1 (some goal.duration)) endMinutes then
    (jsAdd acc.1 (some goal.duration), acc.2 ++ [goalItem goal acc.1])
  else acc

/-- The `forEach` loop over the sorted goals. -/
def packGoals (endMinutes : Option Int) (acc : Option Int × List RoutineItem)
    (goals : List Goal) : Option Int × List RoutineItem :=
  goals.foldl (packStep endMinutes) acc

/-- The filler item pushed when time is left at the end; `now` is the reading
of `Date.now()`.  It is built only when both minutes are numbers, so the
difference is a number. -/
def fillerItem (now : Int) (currentMinutes endMinutes : Option Int) : RoutineItem :=
  { id := "free-" ++ numToString now,
    title := "Free Time / Wind Down",
    startTime := minutesToTime currentMinutes,
    duration := (jsSub endMinutes currentMinutes).getD 0,
    completed := false,
    priority := "Low",
    isSystem := some true }

/-- The "fill gap at end" step. -/
def fillGap (now : Int) (endMinutes : Option Int)
    (acc : Option Int × List RoutineItem) : List RoutineItem :=
  if jsLt acc.1 endMinutes then acc.2 ++ [fillerItem now acc.1 endMinutes] else acc.2

/-- The text of the alert for a window that does not end after its start. -/
def invalidWindowAlert : String := "End time must be after start time"

/-- The text of the alert for an empty goal list. -/
def noGoalsAlert : String := "Please add goals via the Dashboard first."

/-- The routine that `generateRoutine` builds for a window and a goal list. -/
def buildRoutine (now : Int) (startMinutes endMinutes : Option Int)
    (goals : List Goal) : List RoutineItem :=
  fillGap now endMinutes (packGoals endMinutes (startMinutes, []) (sortedGoals goals))

/-- The function `generateRoutine()`: the new state and the alert shown, if any.  `now` is
the reading of `Date.now()`. -/
def generateRoutine (now : Int) (state : State) : State × Option String :=
  let startMinutes := timeToMinutes state.config.start
  let endMinutes := timeToMinutes state.config.end_
  if jsLe endMinutes startMinutes then (state, some invalidWindowAlert)
  else if (sortedGoals state.goals).length = 0 then (state, some noGoalsAlert)
  else ({ state with routine := buildRoutine now startMinutes endMinutes state.goals }, none)

/-! ## The walk of the specification

The specification describes the packing as a walk over the sorted goals with a
cursor.  These definitions follow its words; the theorems compare them with
the loop of `generateRoutine`. -/

/-- A valid "HH:MM" time of day: two digits, a colon, two digits, with the
hour at most 23 and the minute at most 59. -/
def validTime (s : String) : Bool :=
  match s.data with
  | [a, b, ':', c, d] =>
    match digitVal a, digitVal b, digitVal c, digitVal d with
    | some a, some b, some c, some d => decide (a * 10 + b ≤ 23) && decide (c * 10 + d ≤ 59)
    | _, _, _, _ => false
  | _ => false

/-- The walk: for each goal in turn, the goal, the cursor at its turn and
whether it fits (`cursor + duration ≤ end`); the cursor advances by the
duration of a goal that fits and stays where it is otherwise. -/
def cursorWalk (endMinutes : Int) : Int → List Goal → List (Goal × Int × Bool)
  | _, [] => []
  | cursor, goal :: rest =>
    if cursor + goal.duration ≤ endMinutes then
      (goal, cursor, true) :: cursorWalk endMinutes (cursor + goal.duration) rest
    else (goal, cursor, false) :: cursorWalk endMinutes cursor rest

/-- The items of a walk: one item per goal that fits, none for the others. -/
def walkItems (walk : List (Goal × Int × Bool)) : List RoutineItem :=
  walk.filterMap (fun e => if e.2.2 then some (goalItem e.1 (some e.2.1)) else none)

/-- The final cursor of a walk: the start plus the durations of the goals that fit. -/
def walkFinal (startMinutes : Int) (walk : List (Goal × Int × Bool)) : Int :=
  startMinutes + ((walk.filter (fun e => e.2.2)).map (fun e => e.1.duration)).sum

/-- The items of a routine that are not the filler. -/
def goalItems (routine : List RoutineItem) : List RoutineItem :=
  routine.filter (fun it => decide (it.isSystem ≠ some true))

/-- The filler items of a routine. -/
def fillerItems (routine : List RoutineItem) : List RoutineItem :=
  routine.filter (fun it => decide (it.isSystem = some true))

/-- The start of an item in minutes since midnight. -/
def itemStart (it : RoutineItem) : Option Int := timeToMinutes it.startTime

/-- The items tile the interval from `a` to `b`: the first starts at `a`, each
next one starts where the one before it ends, and the last ends at `b`. -/
def Tiles : Int → List RoutineItem → Int → Prop
  | a, [], b => a = b
  | a, it :: rest, b => itemStart it = some a ∧ Tiles (a + it.duration) rest b

/-- The routine that the specification describes for a valid window from `s`
to `e`: the items of the walk over the sorted goals, then the filler from the
final cursor to `e` when the final cursor is before `e`. -/
def walkRoutine (now : Int) (s e : Int) (goals : List Goal) : List RoutineItem :=
  let w := cursorWalk e s (sortedGoals goals)
  walkItems w ++
    (if walkFinal s w < e then [fillerItem now (some (walkFinal s w)) (some e)] else [])

/-! ## Completion toggle -/

/-- The function `toggleComplete(id)`: `find` gives the first item with that id, whose
`completed` flag is flipped in place; nothing happens when there is none. -/
def toggleComplete (id : String) (state : State) : State :=
  match state.routine.findIdx? (fun i => decide (i.id = id)) with
  | some k =>
    { state with
      routine := state.routine.modify (fun item => { item with completed := !item.completed }) k }
  | none => state

/-! ## Goal submission -/

/-- The values of the three modal inputs when the form is submitted. -/
structure ModalInputs where
  title : String
  duration : String
  priority : String
  deriving DecidableEq

/-- The value of a digit of `parseInt` in the given radix (10 or 16), if the
character is one. -/
def radixDigit (radix : Nat) (c : Char) : Option Nat :=
  if 48 ≤ c.toNat ∧ c.toNat ≤ 57 then some (c.toNat - 48)
  else if radix = 16 ∧ 97 ≤ c.toNat ∧ c.toNat ≤ 102 then some (c.toNat - 87)
  else if radix = 16 ∧ 65 ≤ c.toNat ∧ c.toNat ≤ 70 then some (c.toNat - 55)
  else none

/-- The integer written by a list of digits in the given radix. -/
def radixValue (radix : Nat) (cs : List Char) : Nat :=
  cs.foldl (fun acc c => acc * radix + (radixDigit radix c).getD 0) 0

/-- A number as `parseInt` returns it: `NaN`, an integer that is a double
(the zero of either sign is `finite 0`), or an infinity (`negative` tells its
sign). -/
inductive JSNumber where
  | nan : JSNumber
  | finite (z : Int) : JSNumber
  | infinity (negative : Bool) : JSNumber
  deriving DecidableEq

/-- The number of binary digits of `n`, computed with `fuel` halvings. -/
def bitLengthAux : Nat → Nat → Nat
  | 0, _ => 0
  | fuel + 1, n => if n = 0 then 0 else bitLengthAux fuel (n / 2) + 1

/-- The number of binary digits of `n` (0 for 0); `n` halvings are enough. -/
def bitLength (n : Nat) : Nat := bitLengthAux n n

/-- The double nearest to the natural number `n`, ties to the even mantissa:
`n` itself when it has at most 53 binary digits, otherwise `n` rounded to 53
binary digits (`e` low digits are shifted out, `r` is their value and `half`
the middle of their range); `none` when the rounded value has more than 1024
binary digits, that is when it reaches 2^1024, which is `Infinity`. -/
def roundToDouble (n : Nat) : Option Nat :=
  if bitLength n ≤ 53 then some n
  else
    let e := bitLength n - 53
    let q := n >>> e
    let r := n - (q <<< e)
    let half := 1 <<< (e - 1)
    let q1 := if half < r ∨ (r = half ∧ q % 2 = 1) then q + 1 else q
    if 1024 < bitLength (q1 <<< e) then none else some (q1 <<< e)

/-- The function `parseInt(s)` with no radix argument: leading white space is
skipped, a sign is read, a prefix `0x` or `0X` selects radix 16, and the
longest run of digits is the value, rounded to a double; the result is `NaN`
when there is no digit and an infinity when the digits reach 2^1024.  (The
language lets an implementation drop the decimal digits after the 20th; the
value of all the digits is rounded here.) -/
def parseInt (s : String) : JSNumber :=
  let s1 := s.data.dropWhile isJsSpace
  let negative : Bool := match s1 with
    | '-' :: _ => true
    | _ => false
  let s2 := match s1 with
    | '-' :: rest => rest
    | '+' :: rest => rest
    | _ => s1
  let radix : Nat := match s2 with
    | '0' :: 'x' :: _ => 16
    | '0' :: 'X' :: _ => 16
    | _ => 10
  let s3 := match s2 with
    | '0' :: 'x' :: rest => rest
    | '0' :: 'X' :: rest => rest
    | _ => s2
  let z := s3.takeWhile (fun c => (radixDigit radix c).isSome)
  if z = [] then JSNumber.nan
  else
    match roundToDouble (radixValue radix z) with
    | none => JSNumber.infinity negative
    | some m => JSNumber.finite (if negative then - (m : Int) else (m : Int))

/-- The test `isNaN(x)` on a number. -/
def jsIsNaN : JSNumber → Bool
  | JSNumber.nan => true
  | _ => false

/-- A goal as `submitModal` builds it, `{ id, title, duration, priority }`:
the duration is the number that `parseInt` returned.  (The comment on
`state.goals` in the source also lists a `type` property; no code sets it.)
A goal whose duration is `finite` and below 2^53 in magnitude is a `Goal`
of the routine generator. -/
structure SubmittedGoal where
  id : String
  title : String
  duration : JSNumber
  priority : String
  deriving DecidableEq

/-- The global `state` object around `submitModal`, whose goals can hold any
number that `parseInt` returns. -/
structure SubmitState where
  config : Config
  goals : List SubmittedGoal
  routine : List RoutineItem
  activeView : String
  deriving DecidableEq

/-- The initial value of `state`, before any submission. -/
def initialSubmitState : SubmitState :=
  { config := { start := "08:00", end_ := "22:00" },
    goals := [], routine := [], activeView := "dashboard" }

/-- The function `submitModal()`: the title is trimmed and the duration
parsed; an empty title or a `NaN` duration leaves the state as it is,
otherwise a goal with the id `Date.now().toString()` is pushed.  `now` is the
reading of `Date.now()`. -/
def submitModal (now : Int) (inputs : ModalInputs) (state : SubmitState) : SubmitState :=
  let title := jsTrim inputs.title
  let duration := parseInt inputs.duration
  let priority := inputs.priority
  if title = "" ∨ jsIsNaN duration = true then state
  else
    { state with
      goals := state.goals ++
        [{ id := numToString now, title := title, duration := duration,
           priority := priority }] }

/-- One submission of the modal form: the clock reading and the input values. -/
structure Submission where
  now : Int
  inputs : ModalInputs
  deriving DecidableEq

/-- A session: the submissions run one after the other. -/
def submitAll (state : SubmitState) (subs : List Submission) : SubmitState :=
  subs.foldl (fun st sub => submitModal sub.now sub.inputs st) state

/-! ## The persisted snapshot

`loadState` stores whatever values the persisted text holds, so its state is
described with untyped values. -/

/-- A value of the host language as `JSON.parse` can produce it, and
`undefined`.  A number is kept as written: `number m e` is `m * 10 ^ e`.  A
string escape `\uXXXX` of a surrogate code unit is kept as the character
`Char.ofNat` gives for it. -/
inductive JSValue where
  | undefined : JSValue
  | null : JSValue
  | bool (b : Bool) : JSValue
  | number (mantissa : Int) (exponent : Int) : JSValue
  | string (s : String) : JSValue
  | array (items : List JSValue) : JSValue
  | object (props : List (String × JSValue)) : JSValue

/-- The white space of the JSON grammar. -/
def isJsonSpace (c : Char) : Bool :=
  c.toNat = 0x20 || c.toNat = 0x09 || c.toNat = 0x0A || c.toNat = 0x0D

/-- The input without its leading JSON white space. -/
def skipJsonSpace (cs : List Char) : List Char := cs.dropWhile isJsonSpace

/-- A decimal digit character. -/
def isDigitChar (c : Char) : Bool := (digitVal c).isSome

/-- The value of a string of decimal digits; a character that is not a digit
counts as zero. -/
def decimalValue (cs : List Char) : Nat :=
  cs.foldl (fun acc c => acc * 10 + (digitVal c).getD 0) 0

/-- The exponent part of a JSON number: `(exponent, rest)`, or `none` when an
`e` is not followed by digits. -/
def parseJsonExponent (cs : List Char) : Option (Int × List Char) :=
  match cs with
  | c :: rest =>
    if c = 'e' ∨ c = 'E' then
      let negative := rest.head? = some '-'
      let rest1 := if rest.head? = some '-' ∨ rest.head? = some '+' then rest.tail else rest
      let digits := rest1.takeWhile isDigitChar
      if digits = [] then none
      else
        some (if negative then - (decimalValue digits : Int) else (decimalValue digits : Int),
          rest1.dropWhile isDigitChar)
    else some (0, cs)
  | [] => some (0, cs)

/-- The fraction part of a JSON number: `(digits, rest)`, or `none` when a
point is not followed by digits. -/
def parseJsonFraction (cs : List Char) : Option (List Char × List Char) :=
  match cs with
  | '.' :: rest =>
    if rest.takeWhile isDigitChar = [] then none
    else some (rest.takeWhile isDigitChar, rest.dropWhile isDigitChar)
  | _ => some ([], cs)

/-- A JSON number after its optional minus: an integer part without a leading
zero (unless it is `0`), an optional fraction, an optional exponent. -/
def parseJsonUnsigned (negative : Bool) (cs : List Char) : Option (JSValue × List Char) :=
  let intDigits := cs.takeWhile isDigitChar
  if intDigits = [] ∨ (intDigits.head? = some '0' ∧ 1 < intDigits.length) then none
  else
    match parseJsonFraction (cs.dropWhile isDigitChar) with
    | none => none
    | some (fracDigits, rest2) =>
      match parseJsonExponent rest2 with
      | none => none
      | some (exponent, rest3) =>
        let mantissa : Int := decimalValue (intDigits ++ fracDigits)
        some (JSValue.number (if negative then - mantissa else mantissa)
          (exponent - fracDigits.length), rest3)

/-- A JSON number: an optional minus and the unsigned number. -/
def parseJsonNumber (cs : List Char) : Option (JSValue × List Char) :=
  match cs with
  | '-' :: rest => parseJsonUnsigned true rest
  | _ => parseJsonUnsigned false cs

/-- The character that a one-letter escape of a JSON string stands for. -/
def jsonEscape (e : Char) : Option Char :=
  if e.toNat = 34 ∨ e.toNat = 92 ∨ e = '/' then some e
  else if e = 'b' then some (Char.ofNat 8)
  else if e = 'f' then some (Char.ofNat 12)
  else if e = 'n' then some (Char.ofNat 10)
  else if e = 'r' then some (Char.ofNat 13)
  else if e = 't' then some (Char.ofNat 9)
  else none

/-- The character of the four hex digits of a `\u` escape. -/
def jsonHex4 (h1 h2 h3 h4 : Char) : Option Char :=
  match radixDigit 16 h1, radixDigit 16 h2, radixDigit 16 h3, radixDigit 16 h4 with
  | some d1, some d2, some d3, some d4 =>
    some (Char.ofNat (((d1 * 16 + d2) * 16 + d3) * 16 + d4))
  | _, _, _, _ => none

/-- The body of a JSON string after its opening quote: the characters up to
the closing quote (code 34), with the escapes (introduced by code 92)
resolved, and the rest of the input; `acc` holds the characters read so far,
last first.  Control characters below U+0020 and unknown escapes are errors. -/
def parseJsonString : List Char → List Char → Option (String × List Char)
  | [], _ => none
  | c :: rest, acc =>
    if c.toNat = 34 then some (String.mk acc.reverse, rest)
    else if c.toNat = 92 then
      match rest with
      | 'u' :: h1 :: h2 :: h3 :: h4 :: rest2 =>
        match jsonHex4 h1 h2 h3 h4 with
        | some ch => parseJsonString rest2 (ch :: acc)
        | none => none
      | e :: rest1 =>
        match jsonEscape e with
        | some ch => parseJsonString rest1 (ch :: acc)
        | none => none
      | [] => none
    else if c.toNat < 32 then none
    else parseJsonString rest (c :: acc)

/-- A JSON value that holds no other value, at the head of the input: `null`,
`true`, `false`, a string or a number. -/
def parseJsonAtom (cs : List Char) : Option (JSValue × List Char) :=
  match cs with
  | 'n' :: 'u' :: 'l' :: 'l' :: rest => some (JSValue.null, rest)
  | 't' :: 'r' :: 'u' :: 'e' :: rest => some (JSValue.bool true, rest)
  | 'f' :: 'a' :: 'l' :: 's' :: 'e' :: rest => some (JSValue.bool false, rest)
  | c :: rest =>
    if c.toNat = 34 then
      match parseJsonString rest [] with
      | some (s, rest1) => some (JSValue.string s, rest1)
      | none => none
    else parseJsonNumber (c :: rest)
  | [] => none

mutual

/-- A JSON value at the head of the input (after white space) and the rest of
the input: an array, an object (opened by code 123, closed by code 125) or an
atom.  Each call spends one unit of `fuel`. -/
def parseJsonValue : Nat → List Char → Option (JSValue × List Char)
  | 0, _ => none
  | fuel + 1, cs =>
    match skipJsonSpace cs with
    | [] => none
    | c :: rest =>
      if c = '[' then
        match skipJsonSpace rest with
        | ']' :: rest1 => some (JSValue.array [], rest1)
        | _ =>
          match parseJsonElements fuel rest [] with
          | some (items, rest1) => some (JSValue.array items, rest1)
          | none => none
      else if c.toNat = 123 then
        match skipJsonSpace rest with
        | c1 :: rest1 =>
          if c1.toNat = 125 then some (JSValue.object [], rest1)
          else
            match parseJsonMembers fuel rest [] with
            | some (props, rest2) => some (JSValue.object props, rest2)
            | none => none
        | [] => none
      else parseJsonAtom (c :: rest)

/-- The elements of a non-empty JSON array after its opening bracket, up to
the closing bracket; `acc` holds the elements read so far, last first. -/
def parseJsonElements : Nat → List Char → List JSValue → Option (List JSValue × List Char)
  | 0, _, _ => none
  | fuel + 1, cs, acc =>
    match parseJsonValue fuel cs with
    | none => none
    | some (v, rest) =>
      match skipJsonSpace rest with
      | ',' :: rest1 => parseJsonElements fuel rest1 (v :: acc)
      | ']' :: rest1 => some ((v :: acc).reverse, rest1)
      | _ => none

/-- The members of a non-empty JSON object after its opening brace, up to the
closing brace; `acc` holds the members read so far, last first. -/
def parseJsonMembers : Nat → List Char → List (String × JSValue) →
    Option (List (String × JSValue) × List Char)
  | 0, _, _ => none
  | fuel + 1, cs, acc =>
    match skipJsonSpace cs with
    | [] => none
    | q :: rest =>
      if q.toNat = 34 then
        match parseJsonString rest [] with
        | none => none
        | some (key, rest1) =>
          match skipJsonSpace rest1 with
          | ':' :: rest2 =>
            match parseJsonValue fuel rest2 with
            | none => none
            | some (v, rest3) =>
              match skipJsonSpace rest3 with
              | [] => none
              | c :: rest4 =>
                if c = ',' then parseJsonMembers fuel rest4 ((key, v) :: acc)
                else if c.toNat = 125 then some (((key, v) :: acc).reverse, rest4)
                else none
          | _ => none
      else none

end

/-- The function `JSON.parse(text)`: the value of a text that is one JSON value with
optional white space around it; `none` is the `SyntaxError` thrown for any
other text.  The fuel `2 * length + 2` is enough: of two nested calls one
consumes a character (theorem `jsonParse_complete`). -/
def jsonParse (text : String) : Option JSValue :=
  match parseJsonValue (2 * text.data.length + 2) text.data with
  | some (v, rest) => if skipJsonSpace rest = [] then some v else none
  | none => none

/-- What enough fuel means for a parser `p` that spends fuel: a result obtained
with some fuel consumed input, and is obtained again with any fuel of at least
twice the number of characters consumed. -/
def FuelEnough {α β : Type} (p : Nat → List Char → β → Option (α × List Char))
    (f : Nat) : Prop :=
  ∀ (cs : List Char) (b : β) (a : α) (rest : List Char), p f cs b = some (a, rest) →
    rest.length < cs.length ∧
    ∀ g, 2 * (cs.length - rest.length) ≤ g → p g cs b = some (a, rest)

/-- Whether the number `m * 10 ^ e` is zero as a double: it is zero, or its
magnitude is at most 2^-1075 and rounds to zero. -/
def numberIsZero (m e : Int) : Bool :=
  decide (m = 0) || (decide (e < 0) && decide (m.natAbs * 2 ^ 1075 ≤ 10 ^ e.natAbs))

/-- Truthiness, as `||` tests it: `undefined`, `null`, `false`, zero and the
empty string are falsy, every other value is truthy. -/
def truthy : JSValue → Bool
  | JSValue.undefined => false
  | JSValue.null => false
  | JSValue.bool b => b
  | JSValue.number m e => !numberIsZero m e
  | JSValue.string s => decide (s ≠ "")
  | JSValue.array _ => true
  | JSValue.object _ => true

/-- The expression `a || b`. -/
def jsOr (a b : JSValue) : JSValue := if truthy a then a else b

/-- The value of the property `key` among the own properties of a parsed
object: the last member with that key, `undefined` when there is none. -/
def lookupProp (props : List (String × JSValue)) (key : String) : JSValue :=
  match props.reverse.find? (fun p => decide (p.1 = key)) with
  | some p => p.2
  | none => JSValue.undefined

/-- The property access `v.key` for the keys `config`, `goals` and `routine`,
which no prototype defines: `none` is the `TypeError` thrown on `null` and
`undefined`; a value that is not an object has no such property. -/
def getProp (v : JSValue) (key : String) : Option JSValue :=
  match v with
  | JSValue.undefined => none
  | JSValue.null => none
  | JSValue.object props => some (lookupProp props key)
  | _ => some JSValue.undefined

/-- The three fields of `state` that `loadState` assigns. -/
structure RawState where
  config : JSValue
  goals : JSValue
  routine : JSValue

/-- The fields of the initial `state`: the window 08:00-22:00, no goals, no
routine. -/
def defaultRawState : RawState :=
  { config := JSValue.object
      [("start", JSValue.string "08:00"), ("end", JSValue.string "22:00")],
    goals := JSValue.array [],
    routine := JSValue.array [] }

/-- The exceptions that leave `loadState`. -/
inductive LoadError where
  | syntaxError : LoadError
  | typeError : LoadError
  deriving DecidableEq

/-- The function `loadState()`: `saved` is what `localStorage.getItem` returns, `none` for
`null`.  A falsy `saved` (`null` or the empty string) leaves the state as it
is; otherwise the text is parsed and each field is the parsed field, or its
default when the parsed field is falsy.  There is no `try`: the exception of
`JSON.parse` and the one of a property access on `null` leave the function. -/
def loadState (saved : Option String) (state : RawState) : Except LoadError RawState :=
  match saved with
  | none => Except.ok state
  | some text =>
    if text = "" then Except.ok state
    else
      match jsonParse text with
      | none => Except.error LoadError.syntaxError
      | some parsed =>
        match getProp parsed "config", getProp parsed "goals", getProp parsed "routine" with
        | some config, some goals, some routine =>
          Except.ok
            { config := jsOr config state.config,
              goals := jsOr goals (JSValue.array []),
              routine := jsOr routine (JSValue.array []) }
        | _, _, _ => Except.error LoadError.typeError


/-! ## Digits, padding and the time round trip -/

theorem digitVal_digitChar (d : Nat) (h : d < 10) : digitVal (digitChar d) = some d := by
  interval_cases d <;> rfl

theorem digitVal_bounds {c : Char} {d : Nat} (h : digitVal c = some d) :
    48 ≤ c.toNat ∧ c.toNat ≤ 57 := by
  unfold digitVal at h
  split at h
  · assumption
  · cases h

theorem digit_not_space {c : Char} {d : Nat} (h : digitVal c = some d) :
    isJsSpace c = false := by
  have hb := digitVal_bounds h
  simp only [isJsSpace, Bool.or_eq_false_iff, Bool.and_eq_false_imp, decide_eq_false_iff_not,
    decide_eq_true_eq]
  omega

theorem digit_ne_colon {c : Char} {d : Nat} (h : digitVal c = some d) : c ≠ ':' := by
  rintro rfl
  have h0 : digitVal ':' = none := by decide
  rw [h0] at h; cases h

theorem digitsVal_append (a : Nat) (xs ys : List Char) :
    digitsVal a (xs ++ ys) = (digitsVal a xs).bind (fun v => digitsVal v ys) := by
  induction xs generalizing a with
  | nil => rfl
  | cons x xs ih =>
    simp only [List.cons_append, digitsVal]
    cases digitVal x with
    | none => rfl
    | some d => exact ih _

theorem digitsVal_mem {a v : Nat} {ds : List Char} (h : digitsVal a ds = some v) :
    ∀ c ∈ ds, ∃ d, digitVal c = some d := by
  induction ds generalizing a with
  | nil => intro c hc; cases hc
  | cons x xs ih =>
    intro c hc
    simp only [digitsVal] at h
    cases hx : digitVal x with
    | none => rw [hx] at h; cases h
    | some d =>
      rw [hx] at h
      rcases List.mem_cons.1 hc with rfl | hc
      · exact ⟨d, hx⟩
      · exact ih h c hc

theorem natDigitsAux_spec (fuel : Nat) : ∀ (n : Nat) (acc : List Char), n < fuel →
    ∃ ds, natDigitsAux fuel n acc = ds ++ acc ∧ ds ≠ [] ∧ digitsVal 0 ds = some n := by
  induction fuel with
  | zero => intro n acc h; omega
  | succ fuel ih =>
    intro n acc h
    unfold natDigitsAux
    have hd : digitVal (digitChar (n % 10)) = some (n % 10) :=
      digitVal_digitChar _ (Nat.mod_lt _ (by norm_num))
    split
    · rename_i h0
      refine ⟨[digitChar (n % 10)], rfl, by simp, ?_⟩
      simp only [digitsVal, hd]
      congr 1
      omega
    · rename_i h0
      obtain ⟨ds, h1, _, h3⟩ := ih (n / 10) (digitChar (n % 10) :: acc) (by omega)
      refine ⟨ds ++ [digitChar (n % 10)], by simp [h1], by simp, ?_⟩
      rw [digitsVal_append, h3]
      simp only [Option.some_bind, digitsVal, hd]
      congr 1
      omega

theorem natDigits_spec (n : Nat) : natDigits n ≠ [] ∧ digitsVal 0 (natDigits n) = some n := by
  obtain ⟨ds, h1, h2, h3⟩ := natDigitsAux_spec (n + 1) n [] (by omega)
  unfold natDigits
  rw [h1, List.append_nil]
  exact ⟨h2, h3⟩

theorem padStart2_spec {ds : List Char} {n : Nat} (h : digitsVal 0 ds = some n) (hne : ds ≠ []) :
    padStart2 ds ≠ [] ∧ digitsVal 0 (padStart2 ds) = some n := by
  unfold padStart2
  refine ⟨by simp [hne], ?_⟩
  generalize 2 - ds.length = k
  induction k with
  | zero => simpa using h
  | succ k ih =>
    rw [List.replicate_succ, List.cons_append]
    simpa [digitsVal, show digitVal '0' = some 0 from rfl] using ih

theorem dropWhile_head_false {p : Char → Bool} {c : Char} {cs : List Char} (h : p c = false) :
    (c :: cs).dropWhile p = c :: cs := by
  simp [List.dropWhile, h]

theorem trimChars_digits {ds : List Char} {n : Nat} (h : digitsVal 0 ds = some n) :
    trimChars ds = ds := by
  have hall := digitsVal_mem h
  unfold trimChars
  cases ds with
  | nil => rfl
  | cons c cs =>
    obtain ⟨d, hd⟩ := hall c (List.mem_cons_self _ _)
    rw [dropWhile_head_false (digit_not_space hd)]
    cases hr : (c :: cs).reverse with
    | nil => simp at hr
    | cons x xs =>
      have hx : x ∈ c :: cs := by
        rw [← List.mem_reverse, hr]; exact List.mem_cons_self _ _
      obtain ⟨d2, hd2⟩ := hall x hx
      rw [dropWhile_head_false (digit_not_space hd2), ← hr, List.reverse_reverse]

theorem jsNumber_digits {ds : List Char} {n : Nat} (h : digitsVal 0 ds = some n) (hne : ds ≠ []) :
    jsNumber ds = some (n : Int) := by
  have hall := digitsVal_mem h
  unfold jsNumber
  rw [trimChars_digits h]
  cases ds with
  | nil => exact absurd rfl hne
  | cons c cs =>
    obtain ⟨d, hd⟩ := hall c (List.mem_cons_self _ _)
    have hm : c ≠ '-' := by
      rintro rfl
      have h0 : digitVal '-' = none := by decide
      rw [h0] at hd; cases hd
    have hp : c ≠ '+' := by
      rintro rfl
      have h0 : digitVal '+' = none := by decide
      rw [h0] at hd; cases hd
    split
    · rename_i heq; cases heq
    · rename_i heq; injection heq with h1 _; exact absurd h1 hm
    · rename_i heq; injection heq with h1 _; exact absurd h1 hp
    · simp [hm, hp, h]

theorem splitColon_no_colon {cs : List Char} (h : ∀ c ∈ cs, c ≠ ':') : splitColon cs = [cs] := by
  induction cs with
  | nil => rfl
  | cons c cs ih =>
    have hc : c ≠ ':' := h c (List.mem_cons_self _ _)
    have := ih (fun x hx => h x (List.mem_cons_of_mem _ hx))
    simp [splitColon, hc, this]

theorem splitColon_append {xs ys : List Char} (h : ∀ c ∈ xs, c ≠ ':') :
    splitColon (xs ++ ':' :: ys) = xs :: splitColon ys := by
  induction xs with
  | nil => simp [splitColon]
  | cons c cs ih =>
    have hc : c ≠ ':' := h c (List.mem_cons_self _ _)
    have := ih (fun x hx => h x (List.mem_cons_of_mem _ hx))
    simp [splitColon, hc, this]

/-- Reading back a rendered time of day gives the minutes again. -/
theorem timeToMinutes_minutesToTime (c : Int) (hc : 0 ≤ c) :
    timeToMinutes (minutesToTime (some c)) = some c := by
  obtain ⟨n, rfl⟩ := Int.eq_ofNat_of_zero_le hc
  have hh : ((n : Int) / 60) = ((n / 60 : Nat) : Int) := by norm_cast
  have hm : (n : Int).tmod 60 = ((n % 60 : Nat) : Int) := by
    rw [Int.tmod_eq_emod (by omega) (by norm_num)]; norm_cast
  obtain ⟨a1, a2⟩ := natDigits_spec (n / 60)
  obtain ⟨b1, b2⟩ := natDigits_spec (n % 60)
  obtain ⟨pa1, pa2⟩ := padStart2_spec a2 a1
  obtain ⟨pb1, pb2⟩ := padStart2_spec b2 b1
  have ha : ∀ c ∈ padStart2 (natDigits (n / 60)), c ≠ ':' := fun c hc => by
    obtain ⟨d, hd⟩ := digitsVal_mem pa2 c hc
    exact digit_ne_colon hd
  have hb : ∀ c ∈ padStart2 (natDigits (n % 60)), c ≠ ':' := fun c hc => by
    obtain ⟨d, hd⟩ := digitsVal_mem pb2 c hc
    exact digit_ne_colon hd
  simp only [timeToMinutes, minutesToTime, Option.map, numChars, hh, hm, intChars,
    Int.natAbs_ofNat]
  have h1 : ¬ ((n / 60 : Nat) : Int) < 0 := by omega
  have h2 : ¬ ((n % 60 : Nat) : Int) < 0 := by omega
  rw [if_neg h1, if_neg h2, splitColon_append ha, splitColon_no_colon hb]
  simp only [List.map, jsNumber_digits pa2 pa1, jsNumber_digits pb2 pb1, jsMul, jsAdd]
  congr 1
  omega

/-! ## The loop of `generateRoutine` against the walk -/

theorem validTime_minutes {s : String} (h : validTime s = true) :
    ∃ n : Nat, timeToMinutes s = some (n : Int) ∧ n < 1440 := by
  unfold validTime at h
  split at h
  · rename_i a b c d hs
    split at h
    · rename_i va vb vc vd ha hb hc hd
      simp only [Bool.and_eq_true, decide_eq_true_eq] at h
      have h1 : digitsVal 0 [a, b] = some (va * 10 + vb) := by simp [digitsVal, ha, hb]
      have h2 : digitsVal 0 [c, d] = some (vc * 10 + vd) := by simp [digitsVal, hc, hd]
      have hab : ∀ x ∈ [a, b], x ≠ ':' := fun x hx => by
        obtain ⟨v, hv⟩ := digitsVal_mem h1 x hx
        exact digit_ne_colon hv
      have hcd : ∀ x ∈ [c, d], x ≠ ':' := fun x hx => by
        obtain ⟨v, hv⟩ := digitsVal_mem h2 x hx
        exact digit_ne_colon hv
      refine ⟨(va * 10 + vb) * 60 + (vc * 10 + vd), ?_, by omega⟩
      have hsp : splitColon s.data = [[a, b], [c, d]] := by
        rw [hs]
        have := @splitColon_append [a, b] [c, d] hab
        rw [splitColon_no_colon hcd] at this
        simpa using this
      simp only [timeToMinutes, hsp, List.map, jsNumber_digits h1 (by simp),
        jsNumber_digits h2 (by simp), jsMul, jsAdd]
      push_cast
      rfl
    · cases h
  · cases h

theorem packGoals_walk (e : Int) (gs : List Goal) : ∀ (c : Int) (r : List RoutineItem),
    packGoals (some e) (some c, r) gs =
      (some (walkFinal c (cursorWalk e c gs)), r ++ walkItems (cursorWalk e c gs)) := by
  induction gs with
  | nil => intro c r; simp [packGoals, cursorWalk, walkItems, walkFinal]
  | cons g gs ih =>
    intro c r
    unfold packGoals at ih ⊢
    rw [List.foldl_cons]
    by_cases hfit : c + g.duration ≤ e
    · have hstep : packStep (some e) (some c, r) g =
          (some (c + g.duration), r ++ [goalItem g (some c)]) := by
        simp [packStep, jsAdd, jsLe, hfit]
      rw [hstep, ih]
      simp [cursorWalk, hfit, walkItems, walkFinal, add_assoc]
    · have hstep : packStep (some e) (some c, r) g = (some c, r) := by
        simp [packStep, jsAdd, jsLe, hfit]
      rw [hstep, ih]
      simp [cursorWalk, hfit, walkItems, walkFinal]

theorem cursorWalk_goals (e : Int) (gs : List Goal) : ∀ c : Int,
    (cursorWalk e c gs).map (fun x => x.1) = gs := by
  induction gs with
  | nil => intro c; rfl
  | cons g gs ih =>
    intro c
    unfold cursorWalk
    split <;> simp [ih]

theorem walkFinal_le (e : Int) (gs : List Goal) : ∀ c : Int, c ≤ e →
    walkFinal c (cursorWalk e c gs) ≤ e := by
  induction gs with
  | nil => intro c h; simpa [cursorWalk, walkFinal] using h
  | cons g gs ih =>
    intro c h
    unfold cursorWalk
    split
    · rename_i hfit
      have := ih (c + g.duration) hfit
      simp only [walkFinal, List.filter_cons_of_pos, List.map_cons, List.sum_cons] at this ⊢
      omega
    · have := ih c h
      simpa [walkFinal] using this

theorem walkItems_goalItems (w : List (Goal × Int × Bool)) :
    goalItems (walkItems w) = walkItems w ∧ fillerItems (walkItems w) = [] := by
  have hall : ∀ it ∈ walkItems w, it.isSystem = none := by
    intro it hit
    simp only [walkItems, List.mem_filterMap] at hit
    obtain ⟨x, _, hx⟩ := hit
    split at hx
    · cases hx; rfl
    · cases hx
  constructor
  · unfold goalItems
    rw [List.filter_eq_self]
    intro it hit
    simp [hall it hit]
  · unfold fillerItems
    rw [List.filter_eq_nil_iff]
    intro it hit
    simp [hall it hit]

theorem walkItems_tiles (e : Int) (gs : List Goal) (hd : ∀ g ∈ gs, 0 ≤ g.duration) :
    ∀ c : Int, 0 ≤ c →
      Tiles c (walkItems (cursorWalk e c gs)) (walkFinal c (cursorWalk e c gs)) := by
  induction gs with
  | nil => intro c _; simp [cursorWalk, walkItems, walkFinal, Tiles]
  | cons g gs ih =>
    intro c hc
    have hg := hd g (List.mem_cons_self _ _)
    have ih2 := ih (fun x hx => hd x (List.mem_cons_of_mem _ hx))
    unfold cursorWalk
    split
    · have := ih2 (c + g.duration) (by omega)
      simp only [walkItems, walkFinal, List.filterMap_cons, List.filter_cons_of_pos,
        List.map_cons, List.sum_cons, if_true, Tiles] at this ⊢
      refine ⟨?_, ?_⟩
      · simp only [itemStart, goalItem]
        exact timeToMinutes_minutesToTime c hc
      · simpa [goalItem, add_assoc] using this
    · have := ih2 c hc
      simpa [walkItems, walkFinal] using this
/-! ## Tilings -/

theorem tiles_append (xs ys : List RoutineItem) : ∀ (a m b : Int),
    Tiles a xs m → Tiles m ys b → Tiles a (xs ++ ys) b := by
  induction xs with
  | nil => intro a m b h1 h2; simp only [Tiles] at h1; subst h1; simpa using h2
  | cons x xs ih =>
    intro a m b h1 h2
    simp only [Tiles, List.cons_append] at h1 ⊢
    exact ⟨h1.1, ih _ _ _ h1.2 h2⟩

theorem tiles_sum (xs : List RoutineItem) : ∀ (a b : Int),
    Tiles a xs b → a + (xs.map (fun it => it.duration)).sum = b := by
  induction xs with
  | nil => intro a b h; simpa [Tiles] using h
  | cons x xs ih =>
    intro a b h
    simp only [Tiles] at h
    have := ih _ _ h.2
    simp only [List.map_cons, List.sum_cons]
    omega

theorem tiles_bounds (xs : List RoutineItem) : ∀ (a b : Int), Tiles a xs b →
    (∀ it ∈ xs, 0 ≤ it.duration) →
    a ≤ b ∧ (∀ it ∈ xs, ∃ x, itemStart it = some x ∧ a ≤ x ∧ x + it.duration ≤ b) ∧
    xs.Pairwise (fun p q => ∃ x y, itemStart p = some x ∧ itemStart q = some y ∧
      x ≤ y ∧ x + p.duration ≤ y) := by
  induction xs with
  | nil => intro a b h _; simp only [Tiles] at h; subst h; simp
  | cons x xs ih =>
    intro a b h hd
    simp only [Tiles] at h
    have hx := hd x (List.mem_cons_self _ _)
    obtain ⟨h1, h2, h3⟩ := ih _ _ h.2 (fun it hit => hd it (List.mem_cons_of_mem _ hit))
    refine ⟨by omega, ?_, ?_⟩
    · intro it hit
      rcases List.mem_cons.1 hit with rfl | hit
      · exact ⟨a, h.1, le_refl _, h1⟩
      · obtain ⟨y, hy1, hy2, hy3⟩ := h2 it hit
        exact ⟨y, hy1, by omega, hy3⟩
    · rw [List.pairwise_cons]
      refine ⟨?_, h3⟩
      intro it hit
      obtain ⟨y, hy1, hy2, _⟩ := h2 it hit
      exact ⟨a, y, h.1, hy1, by omega, hy2⟩

theorem walkItems_durations (w : List (Goal × Int × Bool)) :
    ((walkItems w).map (fun it => it.duration)).sum =
      ((w.filter (fun e => e.2.2)).map (fun e => e.1.duration)).sum := by
  induction w with
  | nil => rfl
  | cons x w ih =>
    obtain ⟨g, c, f⟩ := x
    cases f
    · simpa [walkItems] using ih
    · simp only [walkItems, List.filterMap_cons, if_true, List.map_cons, List.sum_cons,
        List.filter_cons_of_pos] at ih ⊢
      rw [ih]
      rfl

theorem walkItems_of_goal (w : List (Goal × Int × Bool)) (it : RoutineItem)
    (h : it ∈ walkItems w) : ∃ x ∈ w, x.2.2 = true ∧ it = goalItem x.1 (some x.2.1) := by
  simp only [walkItems, List.mem_filterMap] at h
  obtain ⟨x, hx, hxe⟩ := h
  split at hxe
  · rename_i hf
    exact ⟨x, hx, hf, by cases hxe; rfl⟩
  · cases hxe

/-! ## The outcome of `generateRoutine` on a valid window -/

theorem sortedGoals_perm (goals : List Goal) : (sortedGoals goals).Perm goals :=
  List.perm_insertionSort _ _

theorem sortedGoals_length (goals : List Goal) : (sortedGoals goals).length = goals.length :=
  List.length_insertionSort _ _

theorem buildRoutine_eq (now s e : Int) (goals : List Goal) :
    buildRoutine now (some s) (some e) goals = walkRoutine now s e goals := by
  unfold buildRoutine walkRoutine fillGap
  rw [packGoals_walk]
  simp only [jsLt, List.nil_append, decide_eq_true_eq]
  split <;> simp

theorem generateRoutine_valid (now : Int) (st : State) {s e : Int}
    (hs : timeToMinutes st.config.start = some s) (he : timeToMinutes st.config.end_ = some e)
    (hwin : s < e) (hne : st.goals ≠ []) :
    generateRoutine now st =
      ({ st with routine := walkRoutine now s e st.goals }, none) := by
  unfold generateRoutine
  have hlen : ¬ (sortedGoals st.goals).length = 0 := by
    rw [sortedGoals_length]
    exact fun h => hne (List.length_eq_zero.1 h)
  simp only [hs, he, jsLe, decide_eq_true_eq, not_le.2 hwin, if_false, hlen, buildRoutine_eq]

theorem window_of_valid {st : State}
    (hwin : jsLt (timeToMinutes st.config.start) (timeToMinutes st.config.end_) = true) :
    ∃ s e : Int, timeToMinutes st.config.start = some s ∧
      timeToMinutes st.config.end_ = some e ∧ s < e := by
  cases hs : timeToMinutes st.config.start with
  | none => rw [hs] at hwin; cases hwin
  | some s =>
    cases he : timeToMinutes st.config.end_ with
    | none => rw [hs, he] at hwin; cases hwin
    | some e =>
      rw [hs, he] at hwin
      exact ⟨s, e, rfl, rfl, by simpa [jsLt] using hwin⟩

theorem walkRoutine_tiles (now s e : Int) (goals : List Goal) (hs : 0 ≤ s) (hwin : s < e)
    (hd : ∀ g ∈ goals, 0 ≤ g.duration) : Tiles s (walkRoutine now s e goals) e := by
  have hd2 : ∀ g ∈ sortedGoals goals, 0 ≤ g.duration := fun g hg =>
    hd g ((sortedGoals_perm goals).mem_iff.1 hg)
  have ht := walkItems_tiles e (sortedGoals goals) hd2 s hs
  have hle := walkFinal_le e (sortedGoals goals) s (le_of_lt hwin)
  have hge := (tiles_bounds _ _ _ ht (by
    intro it hit
    obtain ⟨x, hx, _, rfl⟩ := walkItems_of_goal _ it hit
    have : x.1 ∈ sortedGoals goals := by
      rw [← cursorWalk_goals e (sortedGoals goals) s]
      exact List.mem_map_of_mem _ hx
    exact hd2 _ this)).1
  unfold walkRoutine
  apply tiles_append _ _ _ _ _ ht
  split
  · simp only [Tiles, itemStart, fillerItem, jsSub, Option.getD_some]
    exact ⟨timeToMinutes_minutesToTime _ (by omega), by omega⟩
  · simp only [Tiles]
    omega
theorem goalItems_walkRoutine (now s e : Int) (goals : List Goal) :
    goalItems (walkRoutine now s e goals) = walkItems (cursorWalk e s (sortedGoals goals)) := by
  unfold walkRoutine
  simp only
  have h := (walkItems_goalItems (cursorWalk e s (sortedGoals goals))).1
  unfold goalItems at h ⊢
  rw [List.filter_append, h]
  split <;> simp [fillerItem]

theorem fillerItems_walkRoutine (now s e : Int) (goals : List Goal) :
    fillerItems (walkRoutine now s e goals) =
      (if walkFinal s (cursorWalk e s (sortedGoals goals)) < e then
        [fillerItem now (some (walkFinal s (cursorWalk e s (sortedGoals goals)))) (some e)]
      else []) := by
  unfold walkRoutine
  simp only
  have h := (walkItems_goalItems (cursorWalk e s (sortedGoals goals))).2
  unfold fillerItems at h ⊢
  rw [List.filter_append, h]
  split <;> simp [fillerItem]

theorem walkFinal_eq_goalItems (now s e : Int) (goals : List Goal) :
    walkFinal s (cursorWalk e s (sortedGoals goals)) =
      s + ((goalItems (walkRoutine now s e goals)).map (fun it => it.duration)).sum := by
  rw [goalItems_walkRoutine, walkItems_durations]
  rfl
/-! ## Item ids -/

theorem append_suffix_cancel {a b : String} (h : a ++ "-r" = b ++ "-r") : a = b := by
  have h1 : (a ++ "-r").data = (b ++ "-r").data := by rw [h]
  rw [String.data_append, String.data_append] at h1
  exact String.ext (List.append_cancel_right h1)

theorem intChars_digits (z : Int) :
    ∃ ds : List Char, ds ≠ [] ∧ (∀ c ∈ ds, ∃ d, digitVal c = some d) ∧
      (intChars z = ds ∨ intChars z = '-' :: ds) := by
  obtain ⟨h1, h2⟩ := natDigits_spec z.natAbs
  refine ⟨natDigits z.natAbs, h1, digitsVal_mem h2, ?_⟩
  unfold intChars
  split
  · exact Or.inr rfl
  · exact Or.inl rfl

theorem intChars_reverse_head (z : Int) :
    ∃ c d rest, (intChars z).reverse = c :: rest ∧ digitVal c = some d := by
  obtain ⟨ds, hne, hall, h⟩ := intChars_digits z
  cases hr : ds.reverse with
  | nil => simp at hr; exact absurd hr hne
  | cons c rest =>
    have hc : c ∈ ds := by
      rw [← List.mem_reverse, hr]; exact List.mem_cons_self _ _
    obtain ⟨d, hd⟩ := hall c hc
    rcases h with h | h
    · exact ⟨c, d, rest, by rw [h, hr], hd⟩
    · exact ⟨c, d, rest ++ ['-'], by rw [h, List.reverse_cons, hr]; rfl, hd⟩

theorem filler_id_ne (now : Int) (a : String) : "free-" ++ numToString now ≠ a ++ "-r" := by
  intro h
  have h1 : ("free-" ++ numToString now).data.reverse = (a ++ "-r").data.reverse := by rw [h]
  obtain ⟨c, d, rest, hr, hd⟩ := intChars_reverse_head now
  rw [String.data_append, String.data_append, List.reverse_append, List.reverse_append] at h1
  have h2 : (numToString now).data = intChars now := rfl
  rw [h2, hr] at h1
  have h3 : ("-r" : String).data.reverse = ['r', '-'] := rfl
  rw [h3] at h1
  simp only [List.cons_append] at h1
  injection h1 with hc _
  subst hc
  have h0 : digitVal 'r' = none := by decide
  rw [h0] at hd
  cases hd

theorem cursorWalk_fits (e : Int) (gs : List Goal) : ∀ (c : Int),
    ∀ x ∈ cursorWalk e c gs, (x.2.2 = true ↔ x.2.1 + x.1.duration ≤ e) := by
  induction gs with
  | nil => intro c x hx; cases hx
  | cons g gs ih =>
    intro c x hx
    unfold cursorWalk at hx
    split at hx
    · rename_i hfit
      rcases List.mem_cons.1 hx with rfl | hx
      · simpa using hfit
      · exact ih _ x hx
    · rename_i hfit
      rcases List.mem_cons.1 hx with rfl | hx
      · simpa using hfit
      · exact ih _ x hx

theorem walkItems_mem {w : List (Goal × Int × Bool)} {x : Goal × Int × Bool}
    (hx : x ∈ w) (hf : x.2.2 = true) : goalItem x.1 (some x.2.1) ∈ walkItems w := by
  simp only [walkItems, List.mem_filterMap]
  exact ⟨x, hx, by simp [hf]⟩

theorem cursorWalk_ids_nodup (e c : Int) {goals : List Goal}
    (h : (goals.map Goal.id).Nodup) :
    ((cursorWalk e c (sortedGoals goals)).map (fun x => x.1.id)).Nodup := by
  have h1 : (cursorWalk e c (sortedGoals goals)).map (fun x => x.1.id) =
      (sortedGoals goals).map Goal.id := by
    have h2 := congrArg (List.map Goal.id) (cursorWalk_goals e (sortedGoals goals) c)
    rw [List.map_map] at h2
    exact h2
  rw [h1]
  exact (((sortedGoals_perm goals).map Goal.id).nodup_iff).2 h
/-! ## The order of the sorted goals -/

theorem priorityMap_known {p : String} (h : p = "High" ∨ p = "Medium" ∨ p = "Low") :
    ∃ r : Int, priorityMap p = some r := by
  rcases h with rfl | rfl | rfl
  · exact ⟨3, by decide⟩
  · exact ⟨2, by decide⟩
  · exact ⟨1, by decide⟩

theorem notAfter_iff_rank {a b : Goal}
    (ha : a.priority = "High" ∨ a.priority = "Medium" ∨ a.priority = "Low")
    (hb : b.priority = "High" ∨ b.priority = "Medium" ∨ b.priority = "Low") :
    notAfter a b ↔ (priorityMap a.priority).getD 0 ≥ (priorityMap b.priority).getD 0 := by
  obtain ⟨ra, hra⟩ := priorityMap_known ha
  obtain ⟨rb, hrb⟩ := priorityMap_known hb
  simp only [notAfter, sortCompare, hra, hrb, jsSub, Option.getD_some]
  omega

theorem sortedGoals_pairwise {goals : List Goal}
    (hp : ∀ g ∈ goals, g.priority = "High" ∨ g.priority = "Medium" ∨ g.priority = "Low") :
    (sortedGoals goals).Pairwise (fun a b =>
      (priorityMap a.priority).getD 0 ≥ (priorityMap b.priority).getD 0) := by
  have h := List.map_insertionSort notAfter (fun x y : Int => x ≥ y)
    (fun g : Goal => (priorityMap g.priority).getD 0) goals
    (fun a ha b hb => notAfter_iff_rank (hp a ha) (hp b hb))
  have hs := List.sorted_insertionSort (fun x y : Int => x ≥ y)
    (goals.map (fun g : Goal => (priorityMap g.priority).getD 0))
  rw [← h] at hs
  exact List.pairwise_map.1 hs

theorem sortedGoals_stable {goals : List Goal} {a b : Goal} (h : List.Sublist [a, b] goals)
    (hab : a.priority = b.priority) : List.Sublist [a, b] (sortedGoals goals) := by
  apply List.pair_sublist_insertionSort _ h
  simp [notAfter, sortCompare, hab]
  cases priorityMap b.priority <;> simp [jsSub]

theorem walkItems_eq_map (w : List (Goal × Int × Bool)) :
    walkItems w = (w.filter (fun x => x.2.2)).map (fun x => goalItem x.1 (some x.2.1)) := by
  induction w with
  | nil => rfl
  | cons x w ih =>
    obtain ⟨g, c, f⟩ := x
    cases f
    · simpa [walkItems] using ih
    · simp only [walkItems, List.filterMap_cons, if_true, List.filter_cons_of_pos,
        List.map_cons] at ih ⊢
      rw [ih]
/-! ## Completion toggle -/

theorem modify_eq_set_of_get {α : Type} (f : α → α) : ∀ (l : List α) (k : Nat) (a : α),
    l[k]? = some a → l.modify f k = l.set k (f a) := by
  intro l
  induction l with
  | nil => intro k a h; simp at h
  | cons x xs ih =>
    intro k a h
    cases k with
    | zero =>
      simp only [List.getElem?_cons_zero, Option.some.injEq] at h
      subst h
      simp
    | succ k =>
      simp only [List.getElem?_cons_succ] at h
      simp [ih k a h]

theorem findIdx_spec (id : String) : ∀ (l : List RoutineItem),
    (l.findIdx? (fun i => decide (i.id = id)) = none ∧ ∀ it ∈ l, it.id ≠ id) ∨
    (∃ k it, l.findIdx? (fun i => decide (i.id = id)) = some k ∧ l[k]? = some it ∧
      it.id = id ∧ ∀ j it2, j < k → l[j]? = some it2 → it2.id ≠ id) := by
  intro l
  induction l with
  | nil => left; simp
  | cons x xs ih =>
    by_cases hx : x.id = id
    · right
      refine ⟨0, x, by simp [List.findIdx?_cons, hx], by simp, hx, ?_⟩
      intro j it2 hj
      omega
    · rcases ih with ⟨h1, h2⟩ | ⟨k, it, h1, h2, h3, h4⟩
      · left
        refine ⟨?_, ?_⟩
        · rw [List.findIdx?_cons]
          simp only [hx, decide_False, Bool.false_eq_true, if_false]
          rw [List.findIdx?_succ, h1]
          rfl
        · intro it hit
          rcases List.mem_cons.1 hit with rfl | hit
          · exact hx
          · exact h2 it hit
      · right
        refine ⟨k + 1, it, ?_, by simpa using h2, h3, ?_⟩
        · rw [List.findIdx?_cons]
          simp only [hx, decide_False, Bool.false_eq_true, if_false]
          rw [List.findIdx?_succ, h1]
          rfl
        · intro j it2 hj hget
          cases j with
          | zero =>
            simp only [List.getElem?_cons_zero, Option.some.injEq] at hget
            subst hget
            exact hx
          | succ j =>
            simp only [List.getElem?_cons_succ] at hget
            exact h4 j it2 (by omega) hget

theorem findIdx_set (id : String) (l : List RoutineItem) (k : Nat) (it : RoutineItem)
    (h1 : l.findIdx? (fun i => decide (i.id = id)) = some k) (h2 : l[k]? = some it) (b : Bool) :
    (l.set k { it with completed := b }).findIdx? (fun i => decide (i.id = id)) = some k := by
  induction l generalizing k with
  | nil => simp at h2
  | cons x xs ih =>
    by_cases hx : x.id = id
    · have hk : k = 0 := by
        rw [List.findIdx?_cons] at h1
        simp only [hx, decide_True, if_true] at h1
        exact (Option.some.inj h1).symm
      subst hk
      simp only [List.getElem?_cons_zero, Option.some.injEq] at h2
      subst h2
      simp [List.findIdx?_cons, hx]
    · rw [List.findIdx?_cons] at h1
      simp only [hx, decide_False, Bool.false_eq_true, if_false] at h1
      rw [List.findIdx?_succ] at h1
      cases hf : xs.findIdx? (fun i => decide (i.id = id)) with
      | none => rw [hf] at h1; cases h1
      | some k2 =>
        rw [hf] at h1
        have hk : k = k2 + 1 := (Option.some.inj h1).symm
        subst hk
        simp only [List.getElem?_cons_succ] at h2
        have := ih k2 hf h2
        rw [List.set_cons_succ, List.findIdx?_cons]
        simp only [hx, decide_False, Bool.false_eq_true, if_false]
        rw [List.findIdx?_succ, this]
        rfl
/-! ## Goal submission -/

theorem natDigits_injective {a b : Nat} (h : natDigits a = natDigits b) : a = b := by
  have ha := (natDigits_spec a).2
  have hb := (natDigits_spec b).2
  rw [h, hb] at ha
  exact (Option.some.inj ha).symm

theorem natDigits_head_ne_minus (n : Nat) (rest : List Char) : natDigits n ≠ '-' :: rest := by
  intro h
  obtain ⟨d, hd⟩ := digitsVal_mem (natDigits_spec n).2 '-' (by rw [h]; exact List.mem_cons_self _ _)
  have h0 : digitVal '-' = none := by decide
  rw [h0] at hd
  cases hd

theorem numToString_injective {a b : Int} (h : numToString a = numToString b) : a = b := by
  have h1 : intChars a = intChars b := congrArg String.data h
  unfold intChars at h1
  split at h1 <;> split at h1
  · injection h1 with _ h2
    have := natDigits_injective h2
    omega
  · exact absurd h1.symm (natDigits_head_ne_minus _ _)
  · exact absurd h1 (natDigits_head_ne_minus _ _)
  · have := natDigits_injective h1
    omega

theorem bitLengthAux_le_iff (fuel : Nat) : ∀ (n k : Nat), n ≤ fuel →
    (bitLengthAux fuel n ≤ k ↔ n < 2 ^ k) := by
  induction fuel with
  | zero =>
    intro n k hn
    have h0 : n = 0 := Nat.le_zero.1 hn
    subst h0
    simp [bitLengthAux]
  | succ fuel ih =>
    intro n k hn
    unfold bitLengthAux
    by_cases h0 : n = 0
    · subst h0
      simp
    · simp only [h0, if_false]
      cases k with
      | zero =>
        simp only [pow_zero, Nat.lt_one_iff]
        constructor
        · intro h; omega
        · intro h; exact absurd h h0
      | succ k =>
        rw [Nat.add_le_add_iff_right, ih (n / 2) k (by omega), pow_succ]
        omega

theorem bitLength_le_iff (n k : Nat) : bitLength n ≤ k ↔ n < 2 ^ k :=
  bitLengthAux_le_iff n n k (le_refl n)

/-- A natural number below 2^53 is a double: rounding leaves it as it is. -/
theorem roundToDouble_of_lt (n : Nat) (h : n < 2 ^ 53) : roundToDouble n = some n := by
  unfold roundToDouble
  rw [if_pos ((bitLength_le_iff n 53).2 h)]

theorem submitModal_cases (now : Int) (inputs : ModalInputs) (st : SubmitState) :
    submitModal now inputs st = st ∨
    (parseInt inputs.duration ≠ JSNumber.nan ∧ jsTrim inputs.title ≠ "" ∧
      submitModal now inputs st =
        { st with goals := st.goals ++
          [{ id := numToString now, title := jsTrim inputs.title,
             duration := parseInt inputs.duration, priority := inputs.priority }] }) := by
  unfold submitModal
  simp only
  by_cases ht : jsTrim inputs.title = ""
  · left; simp [ht]
  · cases hd : parseInt inputs.duration with
    | nan => left; simp [jsIsNaN]
    | finite z =>
      right
      refine ⟨(fun h => by cases h), ht, ?_⟩
      simp [ht, jsIsNaN]
    | infinity b =>
      right
      refine ⟨(fun h => by cases h), ht, ?_⟩
      simp [ht, jsIsNaN]

theorem submitAll_created : ∀ (subs : List Submission) (st : SubmitState),
    ∃ (created : List SubmittedGoal) (acc : List Submission), List.Sublist acc subs ∧
      (submitAll st subs).goals = st.goals ++ created ∧
      created.map SubmittedGoal.id = acc.map (fun sub => numToString sub.now) := by
  intro subs
  induction subs with
  | nil => intro st; exact ⟨[], [], List.Sublist.slnil, by simp [submitAll], rfl⟩
  | cons sub subs ih =>
    intro st
    have hstep : submitAll st (sub :: subs) = submitAll (submitModal sub.now sub.inputs st) subs :=
      rfl
    rw [hstep]
    rcases submitModal_cases sub.now sub.inputs st with h | ⟨_, _, h⟩
    · rw [h]
      obtain ⟨created, acc, h1, h2, h3⟩ := ih st
      exact ⟨created, acc, h1.cons _, h2, h3⟩
    · rw [h]
      obtain ⟨created, acc, h1, h2, h3⟩ := ih { st with goals := st.goals ++
          [{ id := numToString sub.now, title := jsTrim sub.inputs.title,
             duration := parseInt sub.inputs.duration, priority := sub.inputs.priority }] }
      refine ⟨(⟨numToString sub.now, jsTrim sub.inputs.title, parseInt sub.inputs.duration,
          sub.inputs.priority⟩ : SubmittedGoal) :: created, sub :: acc, h1.cons₂ _, ?_, ?_⟩
      · rw [h2]
        simp
      · simp [h3]
/-! ## The fuel of the JSON parser -/

theorem skipJsonSpace_length (cs : List Char) : (skipJsonSpace cs).length ≤ cs.length :=
  (List.dropWhile_sublist _).length_le

theorem parseJsonString_length : ∀ (n : Nat) (cs acc : List Char) (s : String)
    (rest : List Char), cs.length ≤ n → parseJsonString cs acc = some (s, rest) →
    rest.length < cs.length := by
  intro n
  induction n with
  | zero =>
    intro cs acc s rest hn h
    have : cs = [] := List.length_eq_zero.1 (Nat.le_zero.1 hn)
    subst this
    simp [parseJsonString] at h
  | succ n ih =>
    intro cs acc s rest hn h
    cases cs with
    | nil => simp [parseJsonString] at h
    | cons c cs =>
      simp only [List.length_cons] at hn ⊢
      unfold parseJsonString at h
      split at h
      · simp only [Option.some.injEq, Prod.mk.injEq] at h
        rw [← h.2]
        omega
      · split at h
        · split at h
          · rename_i h1 h2 h3 h4 rest2
            split at h
            · have := ih _ _ _ _ (by simp only [List.length_cons] at hn; omega) h
              simp only [List.length_cons]
              omega
            · cases h
          · rename_i e rest1 _
            split at h
            · have := ih _ _ _ _ (by simp only [List.length_cons] at hn; omega) h
              simp only [List.length_cons]
              omega
            · cases h
          · cases h
        · split at h
          · cases h
          · have := ih _ _ _ _ (by omega) h
            omega

theorem parseJsonFraction_length {cs digits rest : List Char}
    (h : parseJsonFraction cs = some (digits, rest)) : rest.length ≤ cs.length := by
  unfold parseJsonFraction at h
  split at h
  · rename_i r
    split at h
    · cases h
    · simp only [Option.some.injEq, Prod.mk.injEq] at h
      rw [← h.2]
      have := (List.dropWhile_sublist isDigitChar : List.Sublist (r.dropWhile isDigitChar) r).length_le
      simp only [List.length_cons]
      omega
  · simp only [Option.some.injEq, Prod.mk.injEq] at h
    rw [← h.2]

theorem parseJsonExponent_length {cs rest : List Char} {e : Int}
    (h : parseJsonExponent cs = some (e, rest)) : rest.length ≤ cs.length := by
  unfold parseJsonExponent at h
  split at h
  · rename_i c r
    split at h
    · simp only at h
      have h2 : (if r.head? = some '-' ∨ r.head? = some '+' then r.tail else r).length
          ≤ r.length := by
        split
        · simp
        · exact le_refl _
      generalize (if r.head? = some '-' ∨ r.head? = some '+' then r.tail else r) = r1 at h h2
      by_cases hd : r1.takeWhile isDigitChar = []
      · simp [hd] at h
      · simp only [hd, if_false, Option.some.injEq, Prod.mk.injEq] at h
        rw [← h.2]
        have h1 := (List.dropWhile_sublist isDigitChar : List.Sublist (r1.dropWhile isDigitChar) r1).length_le
        simp only [List.length_cons]
        omega
    · simp only [Option.some.injEq, Prod.mk.injEq] at h
      rw [← h.2]
  · simp only [Option.some.injEq, Prod.mk.injEq] at h
    rw [← h.2]

theorem parseJsonUnsigned_length {negative : Bool} {cs rest : List Char} {v : JSValue}
    (h : parseJsonUnsigned negative cs = some (v, rest)) : rest.length < cs.length := by
  unfold parseJsonUnsigned at h
  simp only at h
  split at h
  · cases h
  · rename_i hint
    have hdrop : (cs.dropWhile isDigitChar).length < cs.length := by
      have h1 : (cs.takeWhile isDigitChar).length + (cs.dropWhile isDigitChar).length
          = cs.length := by
        rw [← List.length_append, List.takeWhile_append_dropWhile]
      have h2 : 0 < (cs.takeWhile isDigitChar).length := by
        apply List.length_pos.2
        intro h0
        exact hint (Or.inl h0)
      omega
    split at h
    · cases h
    · rename_i fracDigits rest2 hfrac
      have hr2 := parseJsonFraction_length hfrac
      split at h
      · cases h
      · rename_i exponent rest3 hexp
        have hr3 := parseJsonExponent_length hexp
        simp only [Option.some.injEq, Prod.mk.injEq] at h
        rw [← h.2]
        omega

theorem parseJsonNumber_length {cs rest : List Char} {v : JSValue}
    (h : parseJsonNumber cs = some (v, rest)) : rest.length < cs.length := by
  unfold parseJsonNumber at h
  split at h
  · have := parseJsonUnsigned_length h
    simp only [List.length_cons]
    omega
  · exact parseJsonUnsigned_length h

theorem parseJsonAtom_length {cs rest : List Char} {v : JSValue}
    (h : parseJsonAtom cs = some (v, rest)) : rest.length < cs.length := by
  unfold parseJsonAtom at h
  split at h
  · simp only [Option.some.injEq, Prod.mk.injEq] at h
    rw [← h.2]
    simp only [List.length_cons]
    omega
  · simp only [Option.some.injEq, Prod.mk.injEq] at h
    rw [← h.2]
    simp only [List.length_cons]
    omega
  · simp only [Option.some.injEq, Prod.mk.injEq] at h
    rw [← h.2]
    simp only [List.length_cons]
    omega
  · rename_i c r _ _ _
    split at h
    · split at h
      · rename_i s rest1 hs
        have := parseJsonString_length _ _ _ _ _ (le_refl _) hs
        simp only [Option.some.injEq, Prod.mk.injEq] at h
        rw [← h.2]
        simp only [List.length_cons]
        omega
      · cases h
    · exact parseJsonNumber_length h
  · cases h

theorem parseJsonValue_fuel_step (f : Nat)
    (ihE : FuelEnough parseJsonElements f) (ihM : FuelEnough parseJsonMembers f) :
    FuelEnough (fun g cs (_ : Unit) => parseJsonValue g cs) (f + 1) := by
  intro cs _ v rest h
  simp only at h ⊢
  unfold parseJsonValue at h
  have hsl := skipJsonSpace_length cs
  split at h
  · cases h
  · rename_i c r0 hsk
    rw [hsk] at hsl
    simp only [List.length_cons] at hsl
    have hunfold : ∀ g, parseJsonValue (g + 1) cs =
        (if c = '[' then
          match skipJsonSpace r0 with
          | ']' :: rest1 => some (JSValue.array [], rest1)
          | _ =>
            match parseJsonElements g r0 [] with
            | some (items, rest1) => some (JSValue.array items, rest1)
            | none => none
        else if c.toNat = 123 then
          match skipJsonSpace r0 with
          | c1 :: rest1 =>
            if c1.toNat = 125 then some (JSValue.object [], rest1)
            else
              match parseJsonMembers g r0 [] with
              | some (props, rest2) => some (JSValue.object props, rest2)
              | none => none
          | [] => none
        else parseJsonAtom (c :: r0)) := by
      intro g
      rw [parseJsonValue]
      simp only [hsk]
    have hpos : ∀ g, rest.length < cs.length → 2 * (cs.length - rest.length) ≤ g →
        ∃ g2, g = g2 + 1 ∧ 2 * (cs.length - rest.length) ≤ g2 + 1 := by
      intro g h1 h2
      exact ⟨g - 1, by omega, by omega⟩
    by_cases hc1 : c = '['
    · simp only [hc1, if_true] at h hunfold
      have hsl2 := skipJsonSpace_length r0
      split at h
      · rename_i rest1 hsk2
        rw [hsk2] at hsl2
        simp only [List.length_cons] at hsl2
        simp only [Option.some.injEq, Prod.mk.injEq] at h
        obtain ⟨rfl, rfl⟩ := h
        refine ⟨by omega, ?_⟩
        intro g hg
        obtain ⟨g2, rfl, _⟩ := hpos g (by omega) hg
        rw [hunfold]
        simp only [hsk2]
      · rename_i hno
        split at h
        · rename_i items rest1 hE
          simp only [Option.some.injEq, Prod.mk.injEq] at h
          obtain ⟨rfl, rfl⟩ := h
          obtain ⟨hl, hg0⟩ := ihE _ _ _ _ hE
          refine ⟨by omega, ?_⟩
          intro g hg
          obtain ⟨g2, rfl, _⟩ := hpos g (by omega) hg
          rw [hunfold]
          split
          · rename_i r1 hr1
            exact absurd hr1 (hno r1)
          · rw [hg0 g2 (by omega)]
        · cases h
    · by_cases hc2 : c.toNat = 123
      · simp only [hc1, if_false, hc2, if_true] at h hunfold
        have hsl2 := skipJsonSpace_length r0
        split at h
        · rename_i c1 rest1 hsk2
          rw [hsk2] at hsl2
          simp only [List.length_cons] at hsl2
          by_cases hc3 : c1.toNat = 125
          · simp only [hc3, if_true, Option.some.injEq, Prod.mk.injEq] at h
            obtain ⟨rfl, rfl⟩ := h
            refine ⟨by omega, ?_⟩
            intro g hg
            obtain ⟨g2, rfl, _⟩ := hpos g (by omega) hg
            rw [hunfold]
            simp only [hsk2, hc3, if_true]
          · simp only [hc3, if_false] at h
            split at h
            · rename_i props rest2 hM
              simp only [Option.some.injEq, Prod.mk.injEq] at h
              obtain ⟨rfl, rfl⟩ := h
              obtain ⟨hl, hg0⟩ := ihM _ _ _ _ hM
              refine ⟨by omega, ?_⟩
              intro g hg
              obtain ⟨g2, rfl, _⟩ := hpos g (by omega) hg
              rw [hunfold]
              simp only [hsk2, hc3, if_false, hg0 g2 (by omega)]
            · cases h
        · cases h
      · simp only [hc1, if_false, hc2] at h hunfold
        have hl := parseJsonAtom_length h
        simp only [List.length_cons] at hl
        refine ⟨by omega, ?_⟩
        intro g hg
        obtain ⟨g2, rfl, _⟩ := hpos g (by omega) hg
        rw [hunfold, h]

theorem parseJsonElements_fuel_step (f : Nat)
    (ihV : FuelEnough (fun g cs (_ : Unit) => parseJsonValue g cs) f)
    (ihE : FuelEnough parseJsonElements f) :
    FuelEnough parseJsonElements (f + 1) := by
  intro cs acc items rest h
  unfold parseJsonElements at h
  split at h
  · cases h
  · rename_i v r1 hV
    obtain ⟨hl1, hg1⟩ := ihV cs () v r1 hV
    have hsl := skipJsonSpace_length r1
    have hunfold : ∀ g, 2 * (cs.length - r1.length) ≤ g →
        parseJsonElements (g + 1) cs acc =
          match skipJsonSpace r1 with
          | ',' :: rest1 => parseJsonElements g rest1 (v :: acc)
          | ']' :: rest1 => some ((v :: acc).reverse, rest1)
          | _ => none := by
      intro g hg
      rw [parseJsonElements]
      have := hg1 g hg
      simp only at this
      simp only [this]
    split at h
    · rename_i r2 hsk
      rw [hsk] at hsl
      simp only [List.length_cons] at hsl
      obtain ⟨hl2, hg2⟩ := ihE _ _ _ _ h
      refine ⟨by omega, ?_⟩
      intro g hg
      obtain ⟨g2, rfl⟩ : ∃ g2, g = g2 + 1 := ⟨g - 1, by omega⟩
      rw [hunfold g2 (by omega)]
      simp only [hsk]
      exact hg2 g2 (by omega)
    · rename_i r2 hsk
      rw [hsk] at hsl
      simp only [List.length_cons] at hsl
      simp only [Option.some.injEq, Prod.mk.injEq] at h
      obtain ⟨rfl, rfl⟩ := h
      refine ⟨by omega, ?_⟩
      intro g hg
      obtain ⟨g2, rfl⟩ : ∃ g2, g = g2 + 1 := ⟨g - 1, by omega⟩
      rw [hunfold g2 (by omega)]
      simp only [hsk]
    · cases h

theorem parseJsonMembers_fuel_step (f : Nat)
    (ihV : FuelEnough (fun g cs (_ : Unit) => parseJsonValue g cs) f)
    (ihM : FuelEnough parseJsonMembers f) :
    FuelEnough parseJsonMembers (f + 1) := by
  intro cs acc props rest h
  unfold parseJsonMembers at h
  have hsl0 := skipJsonSpace_length cs
  split at h
  · cases h
  · rename_i q r0 hsk0
    rw [hsk0] at hsl0
    simp only [List.length_cons] at hsl0
    split at h
    · rename_i hq
      split at h
      · cases h
      · rename_i key r1 hkey
        have hl1 := parseJsonString_length _ _ _ _ _ (le_refl _) hkey
        have hsl1 := skipJsonSpace_length r1
        split at h
        · rename_i r2 hsk1
          rw [hsk1] at hsl1
          simp only [List.length_cons] at hsl1
          split at h
          · cases h
          · rename_i v r3 hV
            obtain ⟨hl3, hg3⟩ := ihV r2 () v r3 hV
            have hsl3 := skipJsonSpace_length r3
            have hunfold : ∀ g, 2 * (r2.length - r3.length) ≤ g →
                parseJsonMembers (g + 1) cs acc =
                  match skipJsonSpace r3 with
                  | [] => none
                  | c :: rest4 =>
                    if c = ',' then parseJsonMembers g rest4 ((key, v) :: acc)
                    else if c.toNat = 125 then some (((key, v) :: acc).reverse, rest4)
                    else none := by
              intro g hg
              rw [parseJsonMembers]
              have := hg3 g hg
              simp only at this
              simp only [hsk0, hq, if_true, hkey, hsk1, this]
            split at h
            · cases h
            · rename_i c r4 hsk3
              rw [hsk3] at hsl3
              simp only [List.length_cons] at hsl3
              by_cases hc : c = ','
              · simp only [hc, if_true] at h
                obtain ⟨hl4, hg4⟩ := ihM _ _ _ _ h
                refine ⟨by omega, ?_⟩
                intro g hg
                obtain ⟨g2, rfl⟩ : ∃ g2, g = g2 + 1 := ⟨g - 1, by omega⟩
                rw [hunfold g2 (by omega)]
                simp only [hsk3, hc, if_true]
                exact hg4 g2 (by omega)
              · simp only [hc, if_false] at h
                by_cases hc2 : c.toNat = 125
                · simp only [hc2, if_true, Option.some.injEq, Prod.mk.injEq] at h
                  obtain ⟨rfl, rfl⟩ := h
                  refine ⟨by omega, ?_⟩
                  intro g hg
                  obtain ⟨g2, rfl⟩ : ∃ g2, g = g2 + 1 := ⟨g - 1, by omega⟩
                  rw [hunfold g2 (by omega)]
                  simp only [hsk3, hc, if_false, hc2, if_true]
                · simp [hc2] at h
        · cases h
    · cases h

/-- Whatever fuel a parse succeeded with, it consumed input, and every fuel of
at least twice the number of characters consumed gives the same result. -/
theorem parseJson_fuel (f : Nat) :
    FuelEnough (fun g cs (_ : Unit) => parseJsonValue g cs) f ∧
    FuelEnough parseJsonElements f ∧ FuelEnough parseJsonMembers f := by
  induction f with
  | zero =>
    refine ⟨?_, ?_, ?_⟩
    · intro cs _ a rest h
      simp [parseJsonValue] at h
    · intro cs b a rest h
      simp [parseJsonElements] at h
    · intro cs b a rest h
      simp [parseJsonMembers] at h
  | succ f ih =>
    exact ⟨parseJsonValue_fuel_step f ih.2.1 ih.2.2,
      parseJsonElements_fuel_step f ih.1 ih.2.1,
      parseJsonMembers_fuel_step f ih.1 ih.2.2⟩

/-- The fuel of `jsonParse` is enough: a text that parses as one JSON value
with some amount of fuel is parsed by `jsonParse`, with the same value. -/
theorem jsonParse_complete (text : String) (f : Nat) (v : JSValue) (rest : List Char)
    (h : parseJsonValue f text.data = some (v, rest)) (hrest : skipJsonSpace rest = []) :
    jsonParse text = some v := by
  obtain ⟨hl, hg⟩ := (parseJson_fuel f).1 text.data () v rest h
  have := hg (2 * text.data.length + 2) (by omega)
  simp only at this
  unfold jsonParse
  rw [this]
  simp [hrest]
/-! ## The routine generator: the claims -/

/-- Claim C1: for a config with valid HH:MM start and end, end after start,
and a non-empty goal list with positive durations, `generateRoutine` succeeds
and every item of the routine starts at or after the window start, ends at or
before the window end, and of any two items the earlier one in the list starts
no later than the other and ends no later than the other starts. -/
theorem generateRoutine_within_window (now : Int) (st : State)
    (hstart : validTime st.config.start = true) (_hend : validTime st.config.end_ = true)
    (hwin : jsLt (timeToMinutes st.config.start) (timeToMinutes st.config.end_) = true)
    (hne : st.goals ≠ []) (hdur : ∀ g ∈ st.goals, 0 < g.duration) :
    ∃ s e : Int, timeToMinutes st.config.start = some s ∧
      timeToMinutes st.config.end_ = some e ∧
      (generateRoutine now st).2 = none ∧
      (∀ it ∈ (generateRoutine now st).1.routine,
        ∃ a, itemStart it = some a ∧ s ≤ a ∧ a + it.duration ≤ e) ∧
      (generateRoutine now st).1.routine.Pairwise (fun p q =>
        ∃ a b, itemStart p = some a ∧ itemStart q = some b ∧ a ≤ b ∧ a + p.duration ≤ b) := by
  obtain ⟨s, e, hs, he, hlt⟩ := window_of_valid hwin
  obtain ⟨n, hn, _⟩ := validTime_minutes hstart
  have hs0 : 0 ≤ s := by
    rw [hs] at hn
    cases hn
    exact Int.ofNat_nonneg n
  have ht := walkRoutine_tiles now s e st.goals hs0 hlt (fun g hg => le_of_lt (hdur g hg))
  have hdurs : ∀ it ∈ walkRoutine now s e st.goals, 0 ≤ it.duration := by
    intro it hit
    have hsum := tiles_sum _ _ _ ht
    unfold walkRoutine at hit
    rcases List.mem_append.1 hit with hit | hit
    · obtain ⟨x, hx, _, rfl⟩ := walkItems_of_goal _ it hit
      have hmem : x.1 ∈ sortedGoals st.goals := by
        rw [← cursorWalk_goals e (sortedGoals st.goals) s]
        exact List.mem_map_of_mem _ hx
      exact le_of_lt (hdur _ ((sortedGoals_perm st.goals).mem_iff.1 hmem))
    · split at hit
      · rename_i hf
        rw [List.mem_singleton] at hit
        subst hit
        simp only [fillerItem, jsSub, Option.getD_some]
        omega
      · cases hit
  obtain ⟨_, h2, h3⟩ := tiles_bounds _ _ _ ht hdurs
  refine ⟨s, e, hs, he, ?_, ?_, ?_⟩
  · rw [generateRoutine_valid now st hs he hlt hne]
  · rw [generateRoutine_valid now st hs he hlt hne]
    exact h2
  · rw [generateRoutine_valid now st hs he hlt hne]
    exact h3

/-- Witness of claim C1 on the window 08:00-10:00 with the goals A (90, High)
and B (60, Medium). -/
theorem generateRoutine_within_window_witness :
    ∃ s e : Int, timeToMinutes "08:00" = some s ∧ timeToMinutes "10:00" = some e ∧
      (generateRoutine 5 { initialState with
        config := ⟨"08:00", "10:00"⟩,
        goals := [⟨"1", "A", 90, "High"⟩, ⟨"2", "B", 60, "Medium"⟩] }).2 = none ∧
      (∀ it ∈ (generateRoutine 5 { initialState with
          config := ⟨"08:00", "10:00"⟩,
          goals := [⟨"1", "A", 90, "High"⟩, ⟨"2", "B", 60, "Medium"⟩] }).1.routine,
        ∃ a, itemStart it = some a ∧ s ≤ a ∧ a + it.duration ≤ e) ∧
      (generateRoutine 5 { initialState with
          config := ⟨"08:00", "10:00"⟩,
          goals := [⟨"1", "A", 90, "High"⟩, ⟨"2", "B", 60, "Medium"⟩] }).1.routine.Pairwise
        (fun p q => ∃ a b, itemStart p = some a ∧ itemStart q = some b ∧ a ≤ b ∧
          a + p.duration ≤ b) :=
  generateRoutine_within_window 5
    { initialState with
      config := ⟨"08:00", "10:00"⟩,
      goals := [⟨"1", "A", 90, "High"⟩, ⟨"2", "B", 60, "Medium"⟩] }
    (by decide) (by decide) (by decide) (by decide) (by decide)

/-- Claim C10: for a config with valid HH:MM start and end, end after start,
and a non-empty goal list with positive durations, the routine produced by
`generateRoutine` is non-empty and tiles the window: the first item starts at
the window start, each later item starts where the previous one ends, the last
item ends at the window end, and the durations sum to end minus start. -/
theorem generateRoutine_tiles_window (now : Int) (st : State)
    (hstart : validTime st.config.start = true) (_hend : validTime st.config.end_ = true)
    (hwin : jsLt (timeToMinutes st.config.start) (timeToMinutes st.config.end_) = true)
    (hne : st.goals ≠ []) (hdur : ∀ g ∈ st.goals, 0 < g.duration) :
    ∃ s e : Int, timeToMinutes st.config.start = some s ∧
      timeToMinutes st.config.end_ = some e ∧
      (generateRoutine now st).2 = none ∧
      (generateRoutine now st).1.routine ≠ [] ∧
      Tiles s (generateRoutine now st).1.routine e ∧
      ((generateRoutine now st).1.routine.map (fun it => it.duration)).sum = e - s := by
  obtain ⟨s, e, hs, he, hlt⟩ := window_of_valid hwin
  obtain ⟨n, hn, _⟩ := validTime_minutes hstart
  have hs0 : 0 ≤ s := by
    rw [hs] at hn
    cases hn
    exact Int.ofNat_nonneg n
  have ht := walkRoutine_tiles now s e st.goals hs0 hlt (fun g hg => le_of_lt (hdur g hg))
  have hsum := tiles_sum _ _ _ ht
  refine ⟨s, e, hs, he, ?_, ?_, ?_, ?_⟩
  · rw [generateRoutine_valid now st hs he hlt hne]
  · rw [generateRoutine_valid now st hs he hlt hne]
    intro hnil
    simp only at hnil
    rw [hnil] at ht
    simp only [Tiles] at ht
    omega
  · rw [generateRoutine_valid now st hs he hlt hne]
    exact ht
  · rw [generateRoutine_valid now st hs he hlt hne]
    simp only
    omega

/-- Witness of claim C10 on the window 08:00-10:00 with the goals A (90, High)
and B (60, Medium). -/
theorem generateRoutine_tiles_window_witness :
    ∃ s e : Int, timeToMinutes "08:00" = some s ∧ timeToMinutes "10:00" = some e ∧
      (generateRoutine 5 { initialState with
        config := ⟨"08:00", "10:00"⟩,
        goals := [⟨"1", "A", 90, "High"⟩, ⟨"2", "B", 60, "Medium"⟩] }).2 = none ∧
      (generateRoutine 5 { initialState with
        config := ⟨"08:00", "10:00"⟩,
        goals := [⟨"1", "A", 90, "High"⟩, ⟨"2", "B", 60, "Medium"⟩] }).1.routine ≠ [] ∧
      Tiles s (generateRoutine 5 { initialState with
        config := ⟨"08:00", "10:00"⟩,
        goals := [⟨"1", "A", 90, "High"⟩, ⟨"2", "B", 60, "Medium"⟩] }).1.routine e ∧
      ((generateRoutine 5 { initialState with
        config := ⟨"08:00", "10:00"⟩,
        goals := [⟨"1", "A", 90, "High"⟩, ⟨"2", "B", 60, "Medium"⟩] }).1.routine.map
          (fun it => it.duration)).sum = e - s :=
  generateRoutine_tiles_window 5
    { initialState with
      config := ⟨"08:00", "10:00"⟩,
      goals := [⟨"1", "A", 90, "High"⟩, ⟨"2", "B", 60, "Medium"⟩] }
    (by decide) (by decide) (by decide) (by decide) (by decide)
/-- Claim C4: for a window with end after start and a non-empty goal list, with
the final cursor being the window start plus the durations of the items made
from goals, the routine of `generateRoutine` holds a filler item exactly when
the final cursor is before the end; the filler is then the single filler and
the last item, with the fixed title, priority Low, `isSystem` true, start at
the final cursor and duration end minus final cursor; otherwise the routine
holds the goal items only. -/
theorem generateRoutine_filler (now : Int) (st : State)
    (hwin : jsLt (timeToMinutes st.config.start) (timeToMinutes st.config.end_) = true)
    (hne : st.goals ≠ []) :
    ∃ s e : Int, timeToMinutes st.config.start = some s ∧
      timeToMinutes st.config.end_ = some e ∧
      (generateRoutine now st).2 = none ∧
      ((∃ it ∈ (generateRoutine now st).1.routine, it.isSystem = some true) ↔
        s + ((goalItems (generateRoutine now st).1.routine).map (fun it => it.duration)).sum
          < e) ∧
      (s + ((goalItems (generateRoutine now st).1.routine).map (fun it => it.duration)).sum
          < e →
        ∃ f : RoutineItem,
          (generateRoutine now st).1.routine =
            goalItems (generateRoutine now st).1.routine ++ [f] ∧
          fillerItems (generateRoutine now st).1.routine = [f] ∧
          f.title = "Free Time / Wind Down" ∧ f.priority = "Low" ∧
          f.isSystem = some true ∧ f.completed = false ∧
          f.startTime = minutesToTime (some (s +
            ((goalItems (generateRoutine now st).1.routine).map
              (fun it => it.duration)).sum)) ∧
          f.duration = e - (s +
            ((goalItems (generateRoutine now st).1.routine).map
              (fun it => it.duration)).sum)) ∧
      (¬ s + ((goalItems (generateRoutine now st).1.routine).map (fun it => it.duration)).sum
          < e →
        (generateRoutine now st).1.routine = goalItems (generateRoutine now st).1.routine) := by
  obtain ⟨s, e, hs, he, hlt⟩ := window_of_valid hwin
  refine ⟨s, e, hs, he, ?_⟩
  rw [generateRoutine_valid now st hs he hlt hne]
  simp only
  rw [← walkFinal_eq_goalItems now s e st.goals]
  have hfill := fillerItems_walkRoutine now s e st.goals
  have hgoal := goalItems_walkRoutine now s e st.goals
  have hmem : (∃ it ∈ walkRoutine now s e st.goals, it.isSystem = some true) ↔
      fillerItems (walkRoutine now s e st.goals) ≠ [] := by
    unfold fillerItems
    rw [Ne, List.filter_eq_nil_iff]
    simp
  refine ⟨trivial, ?_, ?_, ?_⟩
  · rw [hmem, hfill]
    split <;> simp [*]
  · intro hf
    refine ⟨fillerItem now (some (walkFinal s (cursorWalk e s (sortedGoals st.goals))))
      (some e), ?_, ?_, rfl, rfl, rfl, rfl, rfl, ?_⟩
    · rw [hgoal]
      simp [walkRoutine, hf]
    · rw [hfill, if_pos hf]
    · simp [fillerItem, jsSub]
  · intro hf
    rw [hgoal]
    simp [walkRoutine, hf]

/-- Witness of claim C4 on the window 08:00-10:00 with the goals A (90, High)
and B (60, Medium): the filler runs from 09:30 for 30 minutes. -/
theorem generateRoutine_filler_witness :
    (generateRoutine 5 { initialState with
        config := ⟨"08:00", "10:00"⟩,
        goals := [⟨"1", "A", 90, "High"⟩, ⟨"2", "B", 60, "Medium"⟩] }).1.routine =
      [⟨"1-r", "A", "08:00", 90, false, "High", none⟩,
       ⟨"free-5", "Free Time / Wind Down", "09:30", 30, false, "Low", some true⟩] ∧
    ∃ s e : Int, timeToMinutes "08:00" = some s ∧ timeToMinutes "10:00" = some e ∧
      s + 90 < e :=
  ⟨by decide, by
    obtain ⟨s, e, hs, he, _, h1, _, _⟩ := generateRoutine_filler 5
      { initialState with
        config := ⟨"08:00", "10:00"⟩,
        goals := [⟨"1", "A", 90, "High"⟩, ⟨"2", "B", 60, "Medium"⟩] }
      (by decide) (by decide)
    refine ⟨s, e, hs, he, ?_⟩
    have hex : ∃ it ∈ (generateRoutine 5 { initialState with
        config := ⟨"08:00", "10:00"⟩,
        goals := [⟨"1", "A", 90, "High"⟩, ⟨"2", "B", 60, "Medium"⟩] }).1.routine,
        it.isSystem = some true :=
      ⟨⟨"free-5", "Free Time / Wind Down", "09:30", 30, false, "Low", some true⟩,
        by decide, rfl⟩
    have h2 := h1.1 hex
    have h3 : ((goalItems (generateRoutine 5 { initialState with
        config := ⟨"08:00", "10:00"⟩,
        goals := [⟨"1", "A", 90, "High"⟩, ⟨"2", "B", 60, "Medium"⟩] }).1.routine).map
          (fun it => it.duration)).sum = 90 := by decide
    rw [h3] at h2
    exact h2⟩

/-- Claim C5: `generateRoutine` fails (shows an alert) exactly when the end
minutes are at most the start minutes or the goal list is empty, with the
invalid window alert in the first case and the no goals alert in the second;
when it fails the state (routine, goals, config) is the prior state; when it
does not fail the routine is the newly built list, which depends on the window
and the goals only, and the rest of the state is kept.  The window 09:00-09:00
fails as an invalid window. -/
theorem generateRoutine_failure (now : Int) (st : State) :
    ((generateRoutine now st).2 ≠ none ↔
      (jsLe (timeToMinutes st.config.end_) (timeToMinutes st.config.start) = true ∨
        st.goals = [])) ∧
    (jsLe (timeToMinutes st.config.end_) (timeToMinutes st.config.start) = true →
      generateRoutine now st = (st, some invalidWindowAlert)) ∧
    (jsLe (timeToMinutes st.config.end_) (timeToMinutes st.config.start) = false →
      st.goals = [] → generateRoutine now st = (st, some noGoalsAlert)) ∧
    ((generateRoutine now st).2 ≠ none → (generateRoutine now st).1 = st) ∧
    ((generateRoutine now st).2 = none →
      (generateRoutine now st).1 =
        { st with routine := (buildRoutine now (timeToMinutes st.config.start)
            (timeToMinutes st.config.end_) st.goals) }) ∧
    generateRoutine now { st with config := ⟨"09:00", "09:00"⟩ } =
      ({ st with config := ⟨"09:00", "09:00"⟩ }, some invalidWindowAlert) := by
  have hlen : (sortedGoals st.goals).length = 0 ↔ st.goals = [] := by
    rw [sortedGoals_length, List.length_eq_zero]
  refine ⟨?_, ?_, ?_, ?_, ?_, ?_⟩
  · unfold generateRoutine
    simp only
    split
    · simp [*]
    · split
      · rename_i h1 h2
        simp [hlen.1 h2]
      · rename_i h1 h2
        simp [h1, mt hlen.2 h2]
  · intro h
    unfold generateRoutine
    simp [h]
  · intro h hg
    unfold generateRoutine
    simp [h, hlen.2 hg]
  · unfold generateRoutine
    simp only
    split
    · simp
    · split <;> simp
  · unfold generateRoutine
    simp only
    split
    · simp
    · split <;> simp
  · have h9 : jsLe (timeToMinutes "09:00") (timeToMinutes "09:00") = true := by decide
    unfold generateRoutine
    simp [h9]
/-- Claim C2: for a window with end after start and a non-empty goal list, let
the walk be the cursor walk over the sorted goals from the window start.  The
items of the routine of `generateRoutine` that are not the filler are exactly
the items of the walk: a goal whose cursor plus duration does not exceed the
end has its item in the routine, with its full duration and its start at the
cursor of its turn; every non-filler item comes from such a goal; and, goal ids
being distinct, an item with the id of a goal is in the routine if and only if
the goal fits at its turn, so a goal that does not fit is absent. -/
theorem generateRoutine_placed_iff_fits (now : Int) (st : State)
    (hwin : jsLt (timeToMinutes st.config.start) (timeToMinutes st.config.end_) = true)
    (hne : st.goals ≠ []) :
    ∃ s e : Int, timeToMinutes st.config.start = some s ∧
      timeToMinutes st.config.end_ = some e ∧
      (generateRoutine now st).2 = none ∧
      goalItems (generateRoutine now st).1.routine =
        walkItems (cursorWalk e s (sortedGoals st.goals)) ∧
      (∀ x ∈ cursorWalk e s (sortedGoals st.goals), x.2.1 + x.1.duration ≤ e →
        ∃ it ∈ (generateRoutine now st).1.routine,
          it.id = x.1.id ++ "-r" ∧ it.title = x.1.title ∧ it.duration = x.1.duration ∧
          it.startTime = minutesToTime (some x.2.1) ∧ it.priority = x.1.priority ∧
          it.completed = false ∧ it.isSystem = none) ∧
      (∀ it ∈ goalItems (generateRoutine now st).1.routine,
        ∃ x ∈ cursorWalk e s (sortedGoals st.goals), x.2.1 + x.1.duration ≤ e ∧
          it.id = x.1.id ++ "-r" ∧ it.duration = x.1.duration ∧
          it.startTime = minutesToTime (some x.2.1)) ∧
      ((st.goals.map Goal.id).Nodup →
        ∀ x ∈ cursorWalk e s (sortedGoals st.goals),
          ((∃ it ∈ (generateRoutine now st).1.routine, it.id = x.1.id ++ "-r") ↔
            x.2.1 + x.1.duration ≤ e)) := by
  obtain ⟨s, e, hs, he, hlt⟩ := window_of_valid hwin
  refine ⟨s, e, hs, he, ?_⟩
  rw [generateRoutine_valid now st hs he hlt hne]
  simp only
  have hgoal := goalItems_walkRoutine now s e st.goals
  have hfits := cursorWalk_fits e (sortedGoals st.goals) s
  have hplaced : ∀ x ∈ cursorWalk e s (sortedGoals st.goals), x.2.1 + x.1.duration ≤ e →
      goalItem x.1 (some x.2.1) ∈ walkRoutine now s e st.goals := by
    intro x hx hfit
    unfold walkRoutine
    exact List.mem_append_left _ (walkItems_mem hx ((hfits x hx).2 hfit))
  refine ⟨trivial, hgoal, ?_, ?_, ?_⟩
  · intro x hx hfit
    exact ⟨_, hplaced x hx hfit, rfl, rfl, rfl, rfl, rfl, rfl, rfl⟩
  · intro it hit
    rw [hgoal] at hit
    obtain ⟨x, hx, hf, rfl⟩ := walkItems_of_goal _ it hit
    exact ⟨x, hx, (hfits x hx).1 hf, rfl, rfl, rfl⟩
  · intro hnd x hx
    constructor
    · rintro ⟨it, hit, hid⟩
      unfold walkRoutine at hit
      rcases List.mem_append.1 hit with hit | hit
      · obtain ⟨y, hy, hf, rfl⟩ := walkItems_of_goal _ it hit
        have hxy : y.1.id = x.1.id := append_suffix_cancel hid
        have := List.inj_on_of_nodup_map (cursorWalk_ids_nodup e s hnd) hy hx hxy
        subst this
        exact (hfits y hy).1 hf
      · split at hit
        · rw [List.mem_singleton] at hit
          subst hit
          exact absurd hid (filler_id_ne now _)
        · cases hit
    · intro hfit
      exact ⟨_, hplaced x hx hfit, rfl⟩

/-- Witness of claim C2, the example of the specification: on the window
08:00-10:00 with the goals A (90, High) and B (60, Medium), A is placed at
08:00, B is dropped, and the filler runs from 09:30 for 30 minutes. -/
theorem generateRoutine_placed_iff_fits_witness :
    (generateRoutine 5 { initialState with
        config := ⟨"08:00", "10:00"⟩,
        goals := [⟨"1", "A", 90, "High"⟩, ⟨"2", "B", 60, "Medium"⟩] }).1.routine =
      [⟨"1-r", "A", "08:00", 90, false, "High", none⟩,
       ⟨"free-5", "Free Time / Wind Down", "09:30", 30, false, "Low", some true⟩] ∧
    ∃ s e : Int, timeToMinutes "08:00" = some s ∧ timeToMinutes "10:00" = some e ∧
      goalItems (generateRoutine 5 { initialState with
        config := ⟨"08:00", "10:00"⟩,
        goals := [⟨"1", "A", 90, "High"⟩, ⟨"2", "B", 60, "Medium"⟩] }).1.routine =
        walkItems (cursorWalk e s
          (sortedGoals [⟨"1", "A", 90, "High"⟩, ⟨"2", "B", 60, "Medium"⟩])) :=
  ⟨by decide, by
    obtain ⟨s, e, hs, he, _, h1, _⟩ := generateRoutine_placed_iff_fits 5
      { initialState with
        config := ⟨"08:00", "10:00"⟩,
        goals := [⟨"1", "A", 90, "High"⟩, ⟨"2", "B", 60, "Medium"⟩] }
      (by decide) (by decide)
    exact ⟨s, e, hs, he, h1⟩⟩
/-- Claim C3: for a window with end after start and a non-empty goal list whose
priorities are High, Medium or Low, the non-filler items of the routine of
`generateRoutine` are in priority rank descending order (High 3, Medium 2,
Low 1); two goals of equal priority keep their input order in the sorted list;
the non-filler items are, in order, the items of a sublist of the sorted list;
and, goal ids being distinct, when A is before B in the input with equal
priority and both have their item in the routine, the item of A is before the
item of B. -/
theorem generateRoutine_priority_order (now : Int) (st : State)
    (hwin : jsLt (timeToMinutes st.config.start) (timeToMinutes st.config.end_) = true)
    (hne : st.goals ≠ [])
    (hprio : ∀ g ∈ st.goals, g.priority = "High" ∨ g.priority = "Medium" ∨ g.priority = "Low") :
    (generateRoutine now st).2 = none ∧
    (goalItems (generateRoutine now st).1.routine).Pairwise (fun p q =>
      ∃ rp rq : Int, priorityMap p.priority = some rp ∧ priorityMap q.priority = some rq ∧
        rq ≤ rp) ∧
    (∀ A B : Goal, List.Sublist [A, B] st.goals → A.priority = B.priority →
      List.Sublist [A, B] (sortedGoals st.goals)) ∧
    (∃ placed : List (Goal × Int),
      List.Sublist (placed.map (fun p => p.1)) (sortedGoals st.goals) ∧
      goalItems (generateRoutine now st).1.routine =
        placed.map (fun p => goalItem p.1 (some p.2))) ∧
    ((st.goals.map Goal.id).Nodup →
      ∀ (A B : Goal) (itA itB : RoutineItem), List.Sublist [A, B] st.goals →
        A.priority = B.priority →
        itA ∈ (generateRoutine now st).1.routine → itA.id = A.id ++ "-r" →
        itB ∈ (generateRoutine now st).1.routine → itB.id = B.id ++ "-r" →
        List.Sublist [itA, itB] (generateRoutine now st).1.routine) := by
  obtain ⟨s, e, hs, he, hlt⟩ := window_of_valid hwin
  rw [generateRoutine_valid now st hs he hlt hne]
  simp only
  have hgoal := goalItems_walkRoutine now s e st.goals
  have hmap := cursorWalk_goals e (sortedGoals st.goals) s
  refine ⟨trivial, ?_, fun A B h hab => sortedGoals_stable h hab, ?_, ?_⟩
  · rw [hgoal, walkItems_eq_map, List.pairwise_map]
    apply List.Pairwise.sublist (List.filter_sublist _)
    have hpw := sortedGoals_pairwise hprio
    rw [← hmap, List.pairwise_map] at hpw
    have hmem : ∀ x ∈ cursorWalk e s (sortedGoals st.goals),
        ∃ r : Int, priorityMap x.1.priority = some r := by
      intro x hx
      have : x.1 ∈ sortedGoals st.goals := by
        rw [← hmap]
        exact List.mem_map_of_mem _ hx
      exact priorityMap_known (hprio _ ((sortedGoals_perm st.goals).mem_iff.1 this))
    have hpw2 := List.Pairwise.and_mem.1 hpw
    refine hpw2.imp ?_
    rintro x y ⟨hx, hy, hxy⟩
    obtain ⟨rx, hrx⟩ := hmem x hx
    obtain ⟨ry, hry⟩ := hmem y hy
    refine ⟨rx, ry, hrx, hry, ?_⟩
    simpa [hrx, hry] using hxy
  · refine ⟨((cursorWalk e s (sortedGoals st.goals)).filter (fun x => x.2.2)).map
      (fun x => (x.1, x.2.1)), ?_, ?_⟩
    · rw [List.map_map]
      have h1 : List.Sublist
          (((cursorWalk e s (sortedGoals st.goals)).filter (fun x => x.2.2)).map (fun x => x.1))
          ((cursorWalk e s (sortedGoals st.goals)).map (fun x => x.1)) :=
        (List.filter_sublist _).map _
      rw [hmap] at h1
      exact h1
    · rw [hgoal, walkItems_eq_map, List.map_map]
      rfl
  · intro hnd A B itA itB hAB hab hitA hidA hitB hidB
    have hwnd := cursorWalk_ids_nodup e s hnd
    have hfind : ∀ (G : Goal) (it : RoutineItem), it ∈ walkRoutine now s e st.goals →
        it.id = G.id ++ "-r" →
        ∃ x ∈ cursorWalk e s (sortedGoals st.goals), x.2.2 = true ∧ x.1.id = G.id ∧
          it = goalItem x.1 (some x.2.1) := by
      intro G it hit hid
      unfold walkRoutine at hit
      rcases List.mem_append.1 hit with hit | hit
      · obtain ⟨y, hy, hf, rfl⟩ := walkItems_of_goal _ it hit
        exact ⟨y, hy, hf, append_suffix_cancel hid, rfl⟩
      · split at hit
        · rw [List.mem_singleton] at hit
          subst hit
          exact absurd hid (filler_id_ne now _)
        · cases hit
    obtain ⟨x, hx, hxf, hxid, rfl⟩ := hfind A itA hitA hidA
    obtain ⟨y, hy, hyf, hyid, rfl⟩ := hfind B itB hitB hidB
    have hsub : List.Sublist [A, B] ((cursorWalk e s (sortedGoals st.goals)).map
        (fun x => x.1)) := by
      rw [hmap]
      exact sortedGoals_stable hAB hab
    obtain ⟨l, hl, hlm⟩ := List.sublist_map_iff.1 hsub
    match l, hl, hlm with
    | [x2, y2], hl, hlm =>
      simp only [List.map_cons, List.map_nil, List.cons.injEq, and_true] at hlm
      have hx2 : x2 ∈ cursorWalk e s (sortedGoals st.goals) := hl.subset (by simp)
      have hy2 : y2 ∈ cursorWalk e s (sortedGoals st.goals) := hl.subset (by simp)
      have e1 : x2 = x := List.inj_on_of_nodup_map hwnd hx2 hx (by
        show x2.1.id = x.1.id
        rw [← hlm.1, hxid])
      have e2 : y2 = y := List.inj_on_of_nodup_map hwnd hy2 hy (by
        show y2.1.id = y.1.id
        rw [← hlm.2, hyid])
      subst e1 e2
      have h2 : List.Sublist (walkItems [x2, y2]) (walkItems
          (cursorWalk e s (sortedGoals st.goals))) := by
        unfold walkItems
        exact List.Sublist.filterMap _ hl
      have h3 : walkItems [x2, y2] =
          [goalItem x2.1 (some x2.2.1), goalItem y2.1 (some y2.2.1)] := by
        simp [walkItems, hxf, hyf]
      rw [h3] at h2
      unfold walkRoutine
      exact h2.trans (List.sublist_append_left _ _)
    | [], _, hlm => cases hlm
    | [_], _, hlm => cases hlm
    | _ :: _ :: _ :: _, _, hlm => cases hlm

/-- Witness of claim C3: Low, Medium, Low, High, Medium goals in a window of
two hours come out as High, Medium, Medium, Low, the two Medium goals in their
input order. -/
theorem generateRoutine_priority_order_witness :
    (goalItems (generateRoutine 5 { initialState with
        config := ⟨"08:00", "10:00"⟩,
        goals := [⟨"1", "A", 30, "Low"⟩, ⟨"2", "B", 60, "Medium"⟩, ⟨"3", "C", 10, "Low"⟩,
          ⟨"4", "D", 20, "High"⟩, ⟨"5", "E", 20, "Medium"⟩] }).1.routine).map
      (fun it => it.title) = ["D", "B", "E", "C"] ∧
    (goalItems (generateRoutine 5 { initialState with
        config := ⟨"08:00", "10:00"⟩,
        goals := [⟨"1", "A", 30, "Low"⟩, ⟨"2", "B", 60, "Medium"⟩, ⟨"3", "C", 10, "Low"⟩,
          ⟨"4", "D", 20, "High"⟩, ⟨"5", "E", 20, "Medium"⟩] }).1.routine).Pairwise
      (fun p q => ∃ rp rq : Int, priorityMap p.priority = some rp ∧
        priorityMap q.priority = some rq ∧ rq ≤ rp) :=
  ⟨by decide,
    (generateRoutine_priority_order 5
      { initialState with
        config := ⟨"08:00", "10:00"⟩,
        goals := [⟨"1", "A", 30, "Low"⟩, ⟨"2", "B", 60, "Medium"⟩, ⟨"3", "C", 10, "Low"⟩,
          ⟨"4", "D", 20, "High"⟩, ⟨"5", "E", 20, "Medium"⟩] }
      (by decide) (by decide) (by decide)).2.1⟩
/-- Claim C6: when no routine item has the id, `toggleComplete` leaves the
state unchanged; otherwise the first item with that id has its `completed`
flag flipped and nothing else changes: the other fields of that item, every
other item, the order and length of the routine, the goals and the config;
toggling the same id twice gives back the original state. -/
theorem toggleComplete_frame (id : String) (st : State) :
    ((∀ it ∈ st.routine, it.id ≠ id) → toggleComplete id st = st) ∧
    ((∃ it ∈ st.routine, it.id = id) →
      ∃ k it, st.routine[k]? = some it ∧ it.id = id ∧
        (∀ j it2, j < k → st.routine[j]? = some it2 → it2.id ≠ id) ∧
        toggleComplete id st =
          { st with routine := st.routine.set k { it with completed := !it.completed } }) ∧
    (toggleComplete id st).goals = st.goals ∧
    (toggleComplete id st).config = st.config ∧
    (toggleComplete id st).activeView = st.activeView ∧
    (toggleComplete id st).routine.length = st.routine.length ∧
    toggleComplete id (toggleComplete id st) = st := by
  rcases findIdx_spec id st.routine with ⟨h1, h2⟩ | ⟨k, it, h1, h2, h3, h4⟩
  · have hst : toggleComplete id st = st := by
      unfold toggleComplete
      rw [h1]
    refine ⟨fun _ => hst, ?_, ?_, ?_, ?_, ?_, ?_⟩
    · rintro ⟨it, hit, hid⟩
      exact absurd hid (h2 it hit)
    all_goals rw [hst]
    rw [hst]
  · have hst : toggleComplete id st =
        { st with routine := st.routine.set k { it with completed := !it.completed } } := by
      unfold toggleComplete
      rw [h1]
      simp only
      rw [modify_eq_set_of_get _ _ _ _ h2]
    have hk : k < st.routine.length := by
      rcases Nat.lt_or_ge k st.routine.length with h | h
      · exact h
      · rw [List.getElem?_eq_none h] at h2
        cases h2
    refine ⟨?_, fun _ => ⟨k, it, h2, h3, h4, hst⟩, ?_, ?_, ?_, ?_, ?_⟩
    · intro hno
      exact absurd h3 (hno it (List.getElem?_mem h2))
    · rw [hst]
    · rw [hst]
    · rw [hst]
    · rw [hst]
      simp
    · have hfind := findIdx_set id st.routine k it h1 h2 (!it.completed)
      have hget : (st.routine.set k { it with completed := !it.completed })[k]? =
          some { it with completed := !it.completed } := by
        simp [List.getElem?_set, hk]
      rw [hst]
      unfold toggleComplete
      simp only
      rw [hfind]
      simp only
      rw [modify_eq_set_of_get _ _ _ _ hget, List.set_set]
      simp only [Bool.not_not]
      have : st.routine.set k it = st.routine := by
        apply List.ext_getElem?
        intro i
        by_cases hi : i = k
        · subst hi
          simp [List.getElem?_set, hk, h2]
        · rw [List.getElem?_set_ne (Ne.symm hi)]
      rw [this]
/-- Claim C7, amended: for every sequence of submissions whose clock readings
are strictly increasing, the goals it creates have pairwise distinct ids, so
`state.goals` holds no two goals with the same id after the session, whatever
goals the session starts with, as long as these have pairwise distinct ids
that are not the id of a reading of the session. -/
theorem submitAll_ids_distinct (st : SubmitState) (subs : List Submission)
    (hclock : (subs.map Submission.now).Pairwise (fun a b => a < b)) :
    ∃ created : List SubmittedGoal, (submitAll st subs).goals = st.goals ++ created ∧
      (created.map SubmittedGoal.id).Nodup ∧
      ((st.goals.map SubmittedGoal.id).Nodup →
        (∀ g ∈ st.goals, ∀ sub ∈ subs, g.id ≠ numToString sub.now) →
        ((submitAll st subs).goals.map SubmittedGoal.id).Nodup) := by
  obtain ⟨created, acc, h1, h2, h3⟩ := submitAll_created subs st
  have hnd : (created.map SubmittedGoal.id).Nodup := by
    rw [h3]
    have hsub : List.Sublist (acc.map Submission.now) (subs.map Submission.now) := h1.map _
    have hpw : (acc.map Submission.now).Pairwise (fun a b => a ≠ b) :=
      (hclock.sublist hsub).imp (fun h => ne_of_lt h)
    have hmap : acc.map (fun sub => numToString sub.now) =
        (acc.map Submission.now).map numToString := by
      rw [List.map_map]
      rfl
    rw [hmap]
    exact List.Nodup.map (fun a b h => numToString_injective h) hpw
  refine ⟨created, h2, hnd, ?_⟩
  intro hstart hfresh
  rw [h2, List.map_append]
  refine List.Nodup.append hstart hnd ?_
  intro x hx1 hx2
  rw [List.mem_map] at hx1
  obtain ⟨g, hg, rfl⟩ := hx1
  rw [h3, List.mem_map] at hx2
  obtain ⟨sub, hsub, hid⟩ := hx2
  exact hfresh g hg sub (h1.subset hsub) hid.symm

/-- Witness of the amended claim C7: a session that starts with a loaded goal
of id "999" and has two submissions at the readings 1000 and 1001 ends with
the ids "999", "1000" and "1001". -/
theorem submitAll_ids_distinct_witness :
    (submitAll { initialSubmitState with goals := [⟨"999", "Run", JSNumber.finite 45, "Low"⟩] }
      [⟨1000, ⟨"Read", "30", "High"⟩⟩, ⟨1001, ⟨"Walk", "20", "Low"⟩⟩]).goals.map
        SubmittedGoal.id = ["999", "1000", "1001"] ∧
    ((submitAll { initialSubmitState with goals := [⟨"999", "Run", JSNumber.finite 45, "Low"⟩] }
      [⟨1000, ⟨"Read", "30", "High"⟩⟩, ⟨1001, ⟨"Walk", "20", "Low"⟩⟩]).goals.map
        SubmittedGoal.id).Nodup := by
  refine ⟨by decide, ?_⟩
  obtain ⟨created, _, _, h3⟩ := submitAll_ids_distinct
    { initialSubmitState with goals := [⟨"999", "Run", JSNumber.finite 45, "Low"⟩] }
    [⟨1000, ⟨"Read", "30", "High"⟩⟩, ⟨1001, ⟨"Walk", "20", "Low"⟩⟩] (by decide)
  exact h3 (by decide) (by decide)

/-- Counterexample to claim C7: two submissions accepted at the same clock
reading 1000 (a non-decreasing sequence of readings) both get the id "1000";
and a session that starts with a loaded goal of id "1000" and has one
submission at the reading 1000 ends with two goals of id "1000". -/
theorem submitAll_same_reading_same_id :
    (([⟨1000, ⟨"Read", "30", "High"⟩⟩, ⟨1000, ⟨"Walk", "20", "Low"⟩⟩] :
        List Submission).map Submission.now).Pairwise (fun a b => a ≤ b) ∧
    (submitAll initialSubmitState
      [⟨1000, ⟨"Read", "30", "High"⟩⟩, ⟨1000, ⟨"Walk", "20", "Low"⟩⟩]).goals =
      [⟨"1000", "Read", JSNumber.finite 30, "High"⟩,
       ⟨"1000", "Walk", JSNumber.finite 20, "Low"⟩] ∧
    ¬ ((submitAll initialSubmitState
      [⟨1000, ⟨"Read", "30", "High"⟩⟩, ⟨1000, ⟨"Walk", "20", "Low"⟩⟩]).goals.map
        SubmittedGoal.id).Nodup ∧
    ¬ ((submitAll
      { initialSubmitState with goals := [⟨"1000", "Run", JSNumber.finite 45, "Low"⟩] }
      [⟨1000, ⟨"Read", "30", "High"⟩⟩]).goals.map SubmittedGoal.id).Nodup := by
  refine ⟨by decide, by decide, by decide, by decide⟩

/-- Claim C8, amended: for every title input and duration input, `submitModal`
either leaves the state unchanged or appends one goal whose title is the
trimmed title input and is not empty and whose duration is the number that
`parseInt` reads from the duration input and is not `NaN`: an integer, which
can be zero or negative, or an infinity. -/
theorem submitModal_goal_shape (now : Int) (inputs : ModalInputs) (st : SubmitState) :
    submitModal now inputs st = st ∨
    ∃ g : SubmittedGoal, (submitModal now inputs st).goals = st.goals ++ [g] ∧
      g.title ≠ "" ∧ g.title = jsTrim inputs.title ∧
      g.duration = parseInt inputs.duration ∧ g.duration ≠ JSNumber.nan ∧
      ((∃ z : Int, g.duration = JSNumber.finite z) ∨
        (∃ b : Bool, g.duration = JSNumber.infinity b)) ∧
      g.id = numToString now ∧ g.priority = inputs.priority ∧
      (submitModal now inputs st).routine = st.routine ∧
      (submitModal now inputs st).config = st.config := by
  rcases submitModal_cases now inputs st with h | ⟨h1, h2, h3⟩
  · exact Or.inl h
  · right
    rw [h3]
    refine ⟨_, rfl, h2, rfl, rfl, h1, ?_, rfl, rfl, rfl, rfl⟩
    simp only
    cases hd : parseInt inputs.duration with
    | nan => exact absurd hd h1
    | finite z => exact Or.inl ⟨z, rfl⟩
    | infinity b => exact Or.inr ⟨b, rfl⟩

set_option maxRecDepth 100000 in
/-- Counterexample to claim C8: the title "Nap" with the duration input "0" is
accepted and the appended goal has duration 0; with the input "-15" it has
duration -15; with the input of a 1 followed by 309 zeros it has the duration
`Infinity`; none is a positive integer. -/
theorem submitModal_accepts_nonpositive :
    (submitModal 1000 ⟨"Nap", "0", "Low"⟩ initialSubmitState).goals =
      [⟨"1000", "Nap", JSNumber.finite 0, "Low"⟩] ∧
    (submitModal 1000 ⟨"Nap", "-15", "Low"⟩ initialSubmitState).goals =
      [⟨"1000", "Nap", JSNumber.finite (-15), "Low"⟩] ∧
    (submitModal 1000 ⟨"Nap", String.mk ('1' :: List.replicate 309 '0'), "Low"⟩
      initialSubmitState).goals = [⟨"1000", "Nap", JSNumber.infinity false, "Low"⟩] ∧
    ¬ ((submitModal 1000 ⟨"Nap", "0", "Low"⟩ initialSubmitState).goals =
        initialSubmitState.goals ∨
      ∃ g : SubmittedGoal,
        (submitModal 1000 ⟨"Nap", "0", "Low"⟩ initialSubmitState).goals =
          initialSubmitState.goals ++ [g] ∧
        g.title ≠ "" ∧ ∃ z : Int, g.duration = JSNumber.finite z ∧ 0 < z) := by
  have h0 : (submitModal 1000 ⟨"Nap", "0", "Low"⟩ initialSubmitState).goals =
      [⟨"1000", "Nap", JSNumber.finite 0, "Low"⟩] := by decide
  refine ⟨h0, by decide, by decide, ?_⟩
  rw [h0]
  rintro (h | ⟨g, hg, _, z, hz, hpos⟩)
  · exact absurd h (by decide)
  · have hg2 : g = ⟨"1000", "Nap", JSNumber.finite 0, "Low"⟩ := by
      have h2 : [g] = [(⟨"1000", "Nap", JSNumber.finite 0, "Low"⟩ : SubmittedGoal)] := by
        simpa [initialSubmitState] using hg.symm
      exact List.head_eq_of_cons_eq h2
    subst hg2
    simp only [JSNumber.finite.injEq] at hz
    omega
/-- Claim C9, amended: `loadState` returns normally with the state unchanged
when nothing is persisted or the persisted text is empty; it throws a
`SyntaxError` when the text is not valid JSON and a `TypeError` when the text
is the JSON `null`; for every other JSON text it returns normally and each of
config, goals and routine is, independently, the persisted field when that is
truthy and otherwise its default (the current config, the empty list, the
empty list); a text that parses as one JSON value with some amount of fuel
does not make it throw a `SyntaxError`. -/
theorem loadState_outcome (saved : Option String) (st : RawState) :
    (saved = none ∨ saved = some "" → loadState saved st = Except.ok st) ∧
    (∀ text, saved = some text → text ≠ "" → jsonParse text = none →
      loadState saved st = Except.error LoadError.syntaxError) ∧
    (∀ text v, saved = some text → text ≠ "" → jsonParse text = some v →
      (v = JSValue.null ∨ v = JSValue.undefined) →
      loadState saved st = Except.error LoadError.typeError) ∧
    (∀ text v, saved = some text → text ≠ "" → jsonParse text = some v →
      v ≠ JSValue.null → v ≠ JSValue.undefined →
      ∃ config goals routine, getProp v "config" = some config ∧
        getProp v "goals" = some goals ∧ getProp v "routine" = some routine ∧
        loadState saved st = Except.ok
          { config := if truthy config then config else st.config,
            goals := if truthy goals then goals else JSValue.array [],
            routine := if truthy routine then routine else JSValue.array [] }) ∧
    (∀ text f v rest, saved = some text → parseJsonValue f text.data = some (v, rest) →
      skipJsonSpace rest = [] →
      loadState saved st ≠ Except.error LoadError.syntaxError) := by
  refine ⟨?_, ?_, ?_, ?_, ?_⟩
  · rintro (h | h) <;> subst h <;> rfl
  · intro text hs hne hp
    subst hs
    simp [loadState, hne, hp]
  · intro text v hs hne hp hv
    subst hs
    rcases hv with rfl | rfl <;> simp [loadState, hne, hp, getProp]
  · intro text v hs hne hp h1 h2
    subst hs
    have hget : ∀ key, ∃ x, getProp v key = some x := by
      intro key
      cases v with
      | undefined => exact absurd rfl h2
      | null => exact absurd rfl h1
      | bool b => exact ⟨_, rfl⟩
      | number m e => exact ⟨_, rfl⟩
      | string s => exact ⟨_, rfl⟩
      | array items => exact ⟨_, rfl⟩
      | object props => exact ⟨_, rfl⟩
    obtain ⟨c, hc⟩ := hget "config"
    obtain ⟨g, hg⟩ := hget "goals"
    obtain ⟨r, hr⟩ := hget "routine"
    refine ⟨c, g, r, hc, hg, hr, ?_⟩
    simp [loadState, hne, hp, hc, hg, hr, jsOr]
  · intro text f v rest hs hp hrest
    subst hs
    have hparse := jsonParse_complete text f v rest hp hrest
    unfold loadState
    simp only [hparse]
    split
    · intro h; cases h
    · split
      · intro h; cases h
      · intro h; cases h

/-- Witness of the amended claim C9: a persisted object that holds only a
goal list keeps the default config and the default routine. -/
theorem loadState_outcome_witness :
    ∃ config goals routine,
      getProp (JSValue.object [("goals", JSValue.array [JSValue.number 7 0])]) "config" =
        some config ∧
      getProp (JSValue.object [("goals", JSValue.array [JSValue.number 7 0])]) "goals" =
        some goals ∧
      getProp (JSValue.object [("goals", JSValue.array [JSValue.number 7 0])]) "routine" =
        some routine ∧
      loadState (some "\x7b\"goals\":[7]\x7d") defaultRawState = Except.ok
        { config := if truthy config then config else defaultRawState.config,
          goals := if truthy goals then goals else JSValue.array [],
          routine := if truthy routine then routine else JSValue.array [] } :=
  (loadState_outcome (some "\x7b\"goals\":[7]\x7d") defaultRawState).2.2.2.1
    "\x7b\"goals\":[7]\x7d" (JSValue.object [("goals", JSValue.array [JSValue.number 7 0])])
    rfl (by decide) rfl (fun h => by cases h) (fun h => by cases h)

/-- Counterexample to claim C9: `loadState` throws a `SyntaxError` on the
persisted text `not json` and on the text of an unclosed object, and a
`TypeError` on the persisted text `null`. -/
theorem loadState_throws :
    loadState (some "not json") defaultRawState = Except.error LoadError.syntaxError ∧
    loadState (some "\x7b\"goals\":[]") defaultRawState =
      Except.error LoadError.syntaxError ∧
    loadState (some "null") defaultRawState = Except.error LoadError.typeError :=
  ⟨rfl, rfl, rfl⟩

end DailyRoutine
